import Mathlib

/-!
# gouss: a URL shortener over a transactional key-value store

A shallow embedding of `main.go`.

* The key-value engine (badger) is a total map from keys to byte strings whose reads,
  writes and commits never fail.  A read-write transaction (`db.Update`) works on a copy
  of the store; the copy replaces the store when the closure returns nil and is dropped
  when it returns an error.  A read-only transaction (`db.View`) reads the store.
* Keys are strings; stored values, request bodies and redirect targets are byte lists.
* A `uint64` is a natural number, with `% two64` wherever the Go code can wrap.
* Run-time panics (index or slice bound out of range) are the failure `outOfRange`.
* The random source is the sequence of values `rand.Intn` returns; the clock is the
  value of `time.Now().UnixNano()`; both are parameters.
* A handler's effect on its `http.ResponseWriter` is the status, the `Location` header
  and the body bytes; writes to it never fail.
* The function `http.Redirect` belongs to net/http, not to this program: it is a parameter
  of the handler that calls it, and nothing is assumed about the `Location` header or the
  body it produces.
* Requests are handled one at a time: the lock `genLocker` and the scheduling of the
  `go Incrementer(...)` goroutine are not part of the model; `Expander` returns the calls
  it starts.
-/

namespace Gouss

/-! ## Constants -/

def beforeIncTrials : Nat := 50

def maxTrials : Nat := 80

def lengthKey : String := "settings:last_length"

def urlPrefix : String := "url:"

def counterPrefix : String := "hits:overall:"

def weekLogPrefix : String := "hits:weeklog:"

def serverAddress : String := "http://localhost:8077"

def letterRunes : List Char :=
  "abcdefghijklmnopqrstuvwxyzABCDEFGHIJKLMNOPQRSTUVWXYZ0123456789-_".data

/-- Number of values of a `uint64`. -/
def two64 : Nat := 18446744073709551616

/-! ## Bytes and the codec -/

/-- One octet. -/
abbrev Byte := Fin 256

/-- A Go `[]byte`, also the contents of a Go `string` used as a value. -/
abbrev Bytes := List Byte

/-- The bytes of an ASCII text (every literal of the program and every code is ASCII). -/
def ascii (s : String) : Bytes :=
  s.data.map (fun c => Fin.ofNat c.toNat)

/-- Ways a call can fail. -/
inductive Failure where
  /-- Run-time panic: index or slice bound out of range. -/
  | outOfRange
  /-- The value `errors.New("failed to generate shortener")`. -/
  | generate
  deriving DecidableEq, Repr

deriving instance DecidableEq for Except

/-- Function `binary.BigEndian.PutUint64` on a fresh 8-byte buffer. -/
def uint64ToBytes (i : Nat) : Bytes :=
  [Fin.ofNat (i / 72057594037927936), Fin.ofNat (i / 281474976710656),
   Fin.ofNat (i / 1099511627776), Fin.ofNat (i / 4294967296),
   Fin.ofNat (i / 16777216), Fin.ofNat (i / 65536), Fin.ofNat (i / 256), Fin.ofNat i]

/-- Function `binary.BigEndian.Uint64`: reads the first eight bytes, panics on a shorter slice. -/
def bigEndianUint64 : Bytes → Except Failure Nat
  | b0 :: b1 :: b2 :: b3 :: b4 :: b5 :: b6 :: b7 :: _ =>
    .ok (b0.val * 72057594037927936 + b1.val * 281474976710656 + b2.val * 1099511627776
      + b3.val * 4294967296 + b4.val * 16777216 + b5.val * 65536 + b6.val * 256 + b7.val)
  | _ => .error .outOfRange

/-- The decoding loop of `GetUInt64Array`: `for i := 0; i < len(val); i += 8` reading
`val[i:i+8]`; a final chunk shorter than eight bytes is a slice bound out of range (the
slice handed to the callback is taken to have no capacity beyond its length). -/
def decodeUInt64Array : Bytes → Except Failure (List Nat)
  | [] => .ok []
  | b0 :: b1 :: b2 :: b3 :: b4 :: b5 :: b6 :: b7 :: rest =>
    match decodeUInt64Array rest with
    | .ok tl =>
      .ok ((b0.val * 72057594037927936 + b1.val * 281474976710656 + b2.val * 1099511627776
        + b3.val * 4294967296 + b4.val * 16777216 + b5.val * 65536 + b6.val * 256 + b7.val) :: tl)
    | .error e => .error e
  | _ => .error .outOfRange

/-- The encoding loop of `SetUInt64Array`: append `uint64ToBytes(el)` for each element. -/
def encodeUInt64Array : List Nat → Bytes
  | [] => []
  | el :: arr => uint64ToBytes el ++ encodeUInt64Array arr

/-! ## The store -/

/-- Contents of the key-value store: `none` is `ErrKeyNotFound`. -/
abbrev Store := String → Option Bytes

/-- The store with no key. -/
def Store.empty : Store := fun _ => none

/-- Method `txn.Set`. -/
def Store.set (st : Store) (key : String) (val : Bytes) : Store :=
  fun k => if k = key then some val else st k

def GetUInt64 (txn : Store) (key : String) (_default : Nat) : Except Failure Nat :=
  match txn key with
  | none => .ok _default
  | some val => bigEndianUint64 val

def GetString (txn : Store) (key : String) (_default : Bytes) : Bytes :=
  match txn key with
  | none => _default
  | some val => val

def SetUint64 (txn : Store) (key : String) (val : Nat) : Store :=
  txn.set key (uint64ToBytes val)

def SetString (txn : Store) (key : String) (val : Bytes) : Store :=
  txn.set key val

def GetUInt64Array (txn : Store) (key : String) : Except Failure (List Nat) :=
  match txn key with
  | none => .ok []
  | some val => decodeUInt64Array val

def SetUInt64Array (txn : Store) (key : String) (arr : List Nat) : Store :=
  txn.set key (encodeUInt64Array arr)

/-! ## Process state, randomness, time -/

/-- The values successive calls of `rand.Intn(len(letterRunes))` return. -/
abbrev Rand := Nat → Fin letterRunes.length

/-- The store `db`, the global `currentLength` and the number of random draws consumed. -/
structure State where
  db : Store
  currentLength : Nat
  randPos : Nat

/-- Conversion `uint64(x)` of a signed value. -/
def toUint64 (x : Int) : Nat := (x % (two64 : Int)).toNat

/-- Constant `time.Hour`, in nanoseconds. -/
def hour : Int := 3600000000000

/-! ## The response writer -/

/-- What has been sent on a response: the status (unset until the header is written), the
`Location` header (the handlers never set it themselves) and the body bytes written. -/
structure ResponseWriter where
  status : Option Nat
  location : Option Bytes
  body : Bytes
  deriving DecidableEq

def ResponseWriter.fresh : ResponseWriter := ⟨none, none, []⟩

/-- Method `w.WriteHeader`: the first status wins. -/
def ResponseWriter.WriteHeader (w : ResponseWriter) (code : Nat) : ResponseWriter :=
  match w.status with
  | none => { w with status := some code }
  | some _ => w

/-- Method `w.Write`: sends status 200 first when no header was written. -/
def ResponseWriter.Write (w : ResponseWriter) (b : Bytes) : ResponseWriter :=
  let w1 := w.WriteHeader 200
  { w1 with body := w1.body ++ b }

/-- The library function `http.Redirect(w, r, url, code)` as the handler sees it: from the
writer, the request (given by its route variable `url`), the url and the status code to
the writer after the call.  What it does with the url (net/http rewrites a url without
scheme and host relative to the request path, escapes it, and adds a note to the body of
a GET answer) is the library's business and is not fixed here. -/
abbrev HTTPRedirect := ResponseWriter → String → Bytes → Nat → ResponseWriter

def FailHTTP (w : ResponseWriter) : ResponseWriter :=
  (w.WriteHeader 500).Write (ascii "Server failure")

/-! ## Code generation and registration -/

/-- Draws `currentLength` runes, starting at draw number `pos`. -/
def GenRandomURL (rng : Rand) (pos : Nat) (currentLength : Nat) : String :=
  String.mk ((List.range currentLength).map (fun i => letterRunes.get (rng (pos + i))))

/-- Variables of the `db.Update` closure of `SetUrl`: the transaction's view of the store,
the global `currentLength`, the draws consumed, `shortener`, and a history variable: the
candidates generated so far, oldest first (one per iteration started). -/
structure Loop where
  txn : Store
  currentLength : Nat
  randPos : Nat
  shortener : String
  tried : List String

/-- The part of an iteration before the lookup: the length step when
`iteration % beforeIncTrials == 0`, then `shortener = GenRandomURL()`. -/
def SetUrlGen (rng : Rand) (iteration : Nat) (s : Loop) : Loop :=
  let len := if iteration % beforeIncTrials = 0 then (s.currentLength + 1) % two64
    else s.currentLength
  let txn := if iteration % beforeIncTrials = 0 then SetUint64 s.txn lengthKey len else s.txn
  let shortener := GenRandomURL rng s.randPos len
  { txn := txn, currentLength := len, randPos := s.randPos + len,
    shortener := shortener, tried := s.tried ++ [shortener] }

/-- The loop `for iteration := 1; iteration <= maxTrials; iteration++` of `SetUrl`; the
first argument counts the iterations the loop condition still admits
(`maxTrials + 1 - iteration`).  Returns the closure's error and its variables. -/
def SetUrlLoop (rng : Rand) (body : Bytes) : Nat → Nat → Loop → Option Failure × Loop
  | 0, _, s => (some .generate, s)
  | left + 1, iteration, s =>
    let s1 := SetUrlGen rng iteration s
    let urlKey := urlPrefix ++ s1.shortener
    let str := GetString s1.txn urlKey []
    if str = [] then
      (none, { s1 with txn := SetString s1.txn urlKey body })
    else
      SetUrlLoop rng body left (iteration + 1) s1

/-- The closure's variables when `db.Update` calls it: the transaction starts as a copy of
the store and `shortener` is the empty string. -/
def SetUrlStart (s : State) : Loop :=
  { txn := s.db, currentLength := s.currentLength, randPos := s.randPos,
    shortener := "", tried := [] }

/-- Outcome of the handler `SetUrl`. -/
structure SetUrlResult where
  /-- Error of the `db.Update` closure (`none` when it returned nil). -/
  err : Option Failure
  /-- Variable `shortener` when the closure returned. -/
  shortener : String
  /-- Candidates generated, oldest first. -/
  tried : List String
  w : ResponseWriter
  state : State

/-- Handler `SetUrl`: the closure runs on a copy of the store, committed only when the
closure returns nil; the global `currentLength` and the random source are not part of
the transaction. -/
def SetUrl (rng : Rand) (body : Bytes) (s : State) (w : ResponseWriter) : SetUrlResult :=
  let r := SetUrlLoop rng body maxTrials 1 (SetUrlStart s)
  match r.1 with
  | some e =>
    { err := some e, shortener := r.2.shortener, tried := r.2.tried, w := FailHTTP w,
      state := { db := s.db, currentLength := r.2.currentLength, randPos := r.2.randPos } }
  | none =>
    { err := none, shortener := r.2.shortener, tried := r.2.tried,
      w := w.Write (ascii (serverAddress ++ "/" ++ r.2.shortener)),
      state := { db := r.2.txn, currentLength := r.2.currentLength, randPos := r.2.randPos } }

/-- Function `GetSettings`, run once at start-up after `currentLength = 4`. -/
def GetSettings (db : Store) (currentLength : Nat) : Except Failure Nat :=
  GetUInt64 db lengthKey currentLength

/-! ## Hit accounting -/

def IncrementCounter (txn : Store) (counterKey : String) : Except Failure Store :=
  match GetUInt64 txn counterKey 0 with
  | .error e => .error e
  | .ok counter => .ok (SetUint64 txn counterKey ((counter + 1) % two64))

/-- The pruning loop of `IncrementWeekLog`. -/
def cleanWeekLog (weekAgo : Nat) : List Nat → List Nat
  | [] => []
  | ts :: rest => if ts > weekAgo then ts :: cleanWeekLog weekAgo rest
    else cleanWeekLog weekAgo rest

/-- Function `IncrementWeekLog`; `now` is `time.Now().UnixNano()`. -/
def IncrementWeekLog (txn : Store) (weekLogKey : String) (now : Int) : Except Failure Store :=
  match GetUInt64Array txn weekLogKey with
  | .error e => .error e
  | .ok weekLog =>
    let weekLog1 := weekLog ++ [toUint64 now]
    let weekAgo := toUint64 (now - 7 * 24 * hour)
    .ok (SetUInt64Array txn weekLogKey (cleanWeekLog weekAgo weekLog1))

/-- The closure of `Incrementer`: both updates in one read-write transaction. -/
def IncrementerTxn (txn : Store) (shortener : String) (now : Int) : Except Failure Store :=
  match IncrementCounter txn (counterPrefix ++ shortener) with
  | .error e => .error e
  | .ok txn1 => IncrementWeekLog txn1 (weekLogPrefix ++ shortener) now

/-- Function `Incrementer`: commits when the closure succeeds, otherwise the store is as before. -/
def Incrementer (db : Store) (shortener : String) (_targetItem : Bytes) (now : Int) : Store :=
  match IncrementerTxn db shortener now with
  | .ok txn => txn
  | .error _ => db

/-! ## Lookup and statistics -/

/-- Outcome of the handler `Expander`: the response and the `go Incrementer(...)` calls started. -/
structure ExpanderResult where
  w : ResponseWriter
  spawned : List (String × Bytes)
  deriving DecidableEq

/-- Handler `Expander`, with the library function `http.Redirect` it calls as first
argument; its transaction is read-only, so the store is not returned. -/
def Expander (redirect : HTTPRedirect) (db : Store) (shortener : String)
    (w : ResponseWriter) : ExpanderResult :=
  let targetItem := GetString db (urlPrefix ++ shortener) []
  if targetItem = [] then
    { w := (w.WriteHeader 404).Write (ascii "URL not found"), spawned := [] }
  else
    { w := redirect w shortener targetItem 308, spawned := [(shortener, targetItem)] }

/-- Variables `redirectTarget`, `counter`, `weekCounter`, `dayCounter` of `URLStat`. -/
structure Stats where
  redirectTarget : Bytes
  counter : Nat
  weekCounter : Nat
  dayCounter : Nat
  deriving DecidableEq

/-- The counting loop of `URLStat` over `weekLog`, on `(weekCounter, dayCounter)`. -/
def countHits (weekAgo dayAgo : Nat) : List Nat → Nat × Nat → Nat × Nat
  | [], c => c
  | ts :: rest, c =>
    let weekCounter := if ts > weekAgo then (c.1 + 1) % two64 else c.1
    let dayCounter := if ts > dayAgo then (c.2 + 1) % two64 else c.2
    countHits weekAgo dayAgo rest (weekCounter, dayCounter)

/-- The `db.View` closure of `URLStat`; a failure is a panic while decoding. -/
def URLStatView (db : Store) (shortener : String) (now : Int) (w : ResponseWriter) :
    Except Failure (ResponseWriter × Stats) :=
  let targetItem := GetString db (urlPrefix ++ shortener) []
  if targetItem = [] then
    .ok ((w.WriteHeader 404).Write (ascii "URL not found"), ⟨[], 0, 0, 0⟩)
  else
    match GetUInt64 db (counterPrefix ++ shortener) 0 with
    | .error e => .error e
    | .ok counter =>
      match GetUInt64Array db (weekLogPrefix ++ shortener) with
      | .error e => .error e
      | .ok weekLog =>
        let weekAgo := toUint64 (now - 7 * 24 * hour)
        let dayAgo := toUint64 (now - 24 * hour)
        let c := countHits weekAgo dayAgo weekLog (0, 0)
        .ok (w, ⟨targetItem, counter, c.1, c.2⟩)

/-- The text `fmt.Fprintf` writes at the end of `URLStat`. -/
def statText (shortener : String) (s : Stats) : Bytes :=
  ascii ("\nShortened URL: " ++ serverAddress ++ "/" ++ shortener ++ "<br>\nReal URL: ")
    ++ s.redirectTarget
    ++ ascii ("<br>\nOverall hits: " ++ toString s.counter ++ "<br>\nWeekly hits: "
      ++ toString s.weekCounter ++ "<br>\n24h hits: " ++ toString s.dayCounter ++ "<br>\n")

/-- Handler `URLStat`. -/
def URLStat (db : Store) (shortener : String) (now : Int) (w : ResponseWriter) :
    Except Failure ResponseWriter :=
  match URLStatView db shortener now w with
  | .error e => .error e
  | .ok (w1, s) => .ok (w1.Write (statText shortener s))

/-! ## The system as a transition system -/

/-- One operation of the running system. -/
inductive Op where
  | setUrl (body : Bytes)
  | expander (shortener : String)
  | urlStat (shortener : String) (now : Int)
  | incrementer (shortener : String) (targetItem : Bytes) (now : Int)

/-- State after one operation. -/
def step (rng : Rand) (s : State) : Op → State
  | .setUrl body => (SetUrl rng body s ResponseWriter.fresh).state
  | .expander _ => s
  | .urlStat _ _ => s
  | .incrementer shortener targetItem now =>
    { s with db := Incrementer s.db shortener targetItem now }

/-- Runs `SetUrl` for each body in turn; returns the closure errors with the codes, in
call order, and the final state. -/
def runSetUrls (rng : Rand) : State → List Bytes → List (Option Failure × String) × State
  | s, [] => ([], s)
  | s, body :: rest =>
    let r := SetUrl rng body s ResponseWriter.fresh
    let out := runSetUrls rng r.state rest
    ((r.err, r.shortener) :: out.1, out.2)

/-- The codes of the calls whose closure returned nil, in call order. -/
def successCodes : List (Option Failure × String) → List String
  | [] => []
  | (none, c) :: rest => c :: successCodes rest
  | (some _, _) :: rest => successCodes rest

/-- The cached length before each call of `runSetUrls` and after the last one. -/
def lengthTrace (rng : Rand) : State → List Bytes → List Nat
  | s, [] => [s.currentLength]
  | s, body :: rest =>
    s.currentLength :: lengthTrace rng (SetUrl rng body s ResponseWriter.fresh).state rest

/-- The cached length agrees with the store: `GetSettings` run at start-up
(`currentLength = 4` before the read) would load exactly the cached value. -/
def cacheConsistent (s : State) : Prop :=
  GetSettings s.db 4 = .ok s.currentLength

instance (s : State) : Decidable (cacheConsistent s) := by
  unfold cacheConsistent; infer_instance

/-! ## Sample inputs -/

/-- A random source whose every draw is 0, the rune `a`. -/
def zeroRand : Rand := fun _ => ⟨0, by decide⟩

/-- A fresh process over an empty store: `currentLength = 4`, no draw consumed. -/
def freshState : State := ⟨Store.empty, 4, 0⟩

/-- A store in which the codes `aaaa` and `aaaaa` have targets. -/
def takenStore : Store :=
  (Store.empty.set (urlPrefix ++ "aaaa") (ascii "x")).set (urlPrefix ++ "aaaaa") (ascii "y")

/-- An instant in 2001, as `UnixNano`. -/
def sampleNow : Int := 1000000000000000000

/-- A store in which `aaaa` has a target and a week log holding the instants `sampleNow`,
2 hours, 3 days and 8 days before it. -/
def statStore : Store :=
  (Store.empty.set (urlPrefix ++ "aaaa") (ascii "x")).set (weekLogPrefix ++ "aaaa")
    (encodeUInt64Array
      [1000000000000000000, 999992800000000000, 999740800000000000, 999308800000000000])

/-- One nanosecond past 7 days after the epoch, as `UnixNano`. -/
def earlyNow : Int := 7 * 24 * hour + 1

/-- A store in which `aaaa` has a target and a week log holding, as the program converts
them, the instants `earlyNow`, 2 hours, 3 days and 8 days before it; the last one lies
before the epoch. -/
def earlyStore : Store :=
  (Store.empty.set (urlPrefix ++ "aaaa") (ascii "x")).set (weekLogPrefix ++ "aaaa")
    (encodeUInt64Array
      [toUint64 earlyNow, toUint64 (earlyNow - 2 * hour), toUint64 (earlyNow - 3 * 24 * hour),
        toUint64 (earlyNow - 8 * 24 * hour)])

/-- The store `statStore` with the target of `aaaa` replaced by the empty string. -/
def emptyTargetStatStore : Store :=
  statStore.set (urlPrefix ++ "aaaa") []

/-- A store in which the week log of `aaaa` holds three bytes. -/
def brokenLogStore : Store :=
  Store.empty.set (weekLogPrefix ++ "aaaa") [1, 2, 3]

/-! ## Repeated accounting -/

/-- Runs `IncrementWeekLog` on one key, once for each instant in turn, and stops at the
first failure. -/
def runWeekLog (weekLogKey : String) : Store → List Int → Except Failure Store
  | txn, [] => .ok txn
  | txn, now :: rest =>
    match IncrementWeekLog txn weekLogKey now with
    | .error e => .error e
    | .ok txn1 => runWeekLog weekLogKey txn1 rest

/-! ## Store and key lemmas -/

theorem Store.set_same (st : Store) (key : String) (val : Bytes) :
    st.set key val key = some val := by
  simp [Store.set]

theorem Store.set_other (st : Store) (key k : String) (val : Bytes) (h : k ≠ key) :
    st.set key val k = st k := by
  simp [Store.set, h]

theorem urlKey_ne_lengthKey (c : String) : urlPrefix ++ c ≠ lengthKey := by
  intro h
  have := congrArg String.data h
  simp [urlPrefix, lengthKey, String.data_append] at this

theorem counterKey_ne_urlKey (a c : String) : counterPrefix ++ a ≠ urlPrefix ++ c := by
  intro h
  have := congrArg String.data h
  simp [urlPrefix, counterPrefix, String.data_append] at this

theorem weekLogKey_ne_urlKey (a c : String) : weekLogPrefix ++ a ≠ urlPrefix ++ c := by
  intro h
  have := congrArg String.data h
  simp [urlPrefix, weekLogPrefix, String.data_append] at this

theorem bigEndianUint64_uint64ToBytes (i : Nat) (h : i < two64) (rest : Bytes) :
    bigEndianUint64 (uint64ToBytes i ++ rest) = .ok i := by
  simp only [uint64ToBytes, bigEndianUint64, List.cons_append, List.nil_append, Fin.ofNat]
  simp only [two64] at h
  congr 1
  omega

/-! ## Codec lemmas -/

theorem decodeUInt64Array_uint64ToBytes_append (i : Nat) (h : i < two64) (rest : Bytes) :
    decodeUInt64Array (uint64ToBytes i ++ rest) =
      match decodeUInt64Array rest with
      | .ok tl => .ok (i :: tl)
      | .error e => .error e := by
  simp only [uint64ToBytes, List.cons_append, List.nil_append, decodeUInt64Array, Fin.ofNat]
  simp only [two64] at h
  have e : (i / 72057594037927936 % (255 + 1)) * 72057594037927936
      + (i / 281474976710656 % (255 + 1)) * 281474976710656
      + (i / 1099511627776 % (255 + 1)) * 1099511627776
      + (i / 4294967296 % (255 + 1)) * 4294967296 + (i / 16777216 % (255 + 1)) * 16777216
      + (i / 65536 % (255 + 1)) * 65536 + (i / 256 % (255 + 1)) * 256 + i % (255 + 1) = i := by
    omega
  rw [e]
  rfl

theorem decodeUInt64Array_encodeUInt64Array (arr : List Nat) (h : ∀ x ∈ arr, x < two64) :
    decodeUInt64Array (encodeUInt64Array arr) = .ok arr := by
  induction arr with
  | nil => rfl
  | cons x xs ih =>
    rw [encodeUInt64Array, decodeUInt64Array_uint64ToBytes_append x (h x (by simp)),
      ih (fun y hy => h y (by simp [hy]))]

theorem decodeUInt64Array_lt (val : Bytes) :
    ∀ arr, decodeUInt64Array val = .ok arr → ∀ x ∈ arr, x < two64 := by
  induction val using decodeUInt64Array.induct with
  | case1 =>
    intro arr h x hx
    simp [decodeUInt64Array] at h
    subst h
    simp at hx
  | case2 b0 b1 b2 b3 b4 b5 b6 b7 rest tl hr ih =>
    intro arr h x hx
    simp only [decodeUInt64Array, hr] at h
    simp at h
    subst h
    rcases List.mem_cons.1 hx with hx | hx
    · subst hx
      have := b0.isLt; have := b1.isLt; have := b2.isLt; have := b3.isLt
      have := b4.isLt; have := b5.isLt; have := b6.isLt; have := b7.isLt
      simp only [two64]
      omega
    · exact ih tl hr x hx
  | case3 b0 b1 b2 b3 b4 b5 b6 b7 rest e hr ih =>
    intro arr h
    simp only [decodeUInt64Array, hr] at h
    simp at h
  | case4 val h1 h2 =>
    intro arr h
    rw [decodeUInt64Array] at h
    · simp at h
    · exact h1
    · exact h2

theorem cleanWeekLog_eq_filter (weekAgo : Nat) (l : List Nat) :
    cleanWeekLog weekAgo l = l.filter (fun ts => decide (weekAgo < ts)) := by
  induction l with
  | nil => rfl
  | cons x xs ih =>
    by_cases h : weekAgo < x
    · simp [cleanWeekLog, h, ih]
    · simp [cleanWeekLog, h, ih]

/-! ## The registration loop -/

theorem SetUrlGen_txn (rng : Rand) (iteration : Nat) (s : Loop) (k : String)
    (hk : k ≠ lengthKey) : (SetUrlGen rng iteration s).txn k = s.txn k := by
  unfold SetUrlGen
  by_cases h : iteration % beforeIncTrials = 0
  · simp [h, SetUint64, Store.set, hk]
  · simp [h]

theorem SetUrlGen_tried (rng : Rand) (iteration : Nat) (s : Loop) :
    (SetUrlGen rng iteration s).tried = s.tried ++ [(SetUrlGen rng iteration s).shortener] := by
  rfl

theorem SetUrlGen_currentLength (rng : Rand) (iteration : Nat) (s : Loop) :
    (SetUrlGen rng iteration s).currentLength =
      if iteration % beforeIncTrials = 0 then (s.currentLength + 1) % two64
      else s.currentLength := by
  rfl

theorem GetString_congr (a b : Store) (k : String) (d : Bytes) (h : a k = b k) :
    GetString a k d = GetString b k d := by
  simp [GetString, h]

/-- A successful run of the loop wrote the body under a key the lookup found free, and
left every other key except `lengthKey` as it was. -/
theorem SetUrlLoop_ok (rng : Rand) (body : Bytes) (left : Nat) :
    ∀ (iteration : Nat) (s : Loop), (SetUrlLoop rng body left iteration s).1 = none →
      (SetUrlLoop rng body left iteration s).2.shortener ∈
        (SetUrlLoop rng body left iteration s).2.tried ∧
      GetString s.txn (urlPrefix ++ (SetUrlLoop rng body left iteration s).2.shortener) [] = [] ∧
      (SetUrlLoop rng body left iteration s).2.txn
        (urlPrefix ++ (SetUrlLoop rng body left iteration s).2.shortener) = some body ∧
      ∀ k, k ≠ lengthKey →
        k ≠ urlPrefix ++ (SetUrlLoop rng body left iteration s).2.shortener →
        (SetUrlLoop rng body left iteration s).2.txn k = s.txn k := by
  induction left with
  | zero => intro iteration s h; simp [SetUrlLoop] at h
  | succ n ih =>
    intro iteration s h
    simp only [SetUrlLoop] at h ⊢
    split at h
    · rename_i hfree
      rw [if_pos hfree]
      refine ⟨?_, ?_, ?_, ?_⟩
      · simp [SetUrlGen_tried]
      · rw [← GetString_congr _ _ _ _ (SetUrlGen_txn rng iteration s _ (urlKey_ne_lengthKey _))]
        exact hfree
      · simp [SetString, Store.set]
      · intro k hk hk2
        simp only [SetString, Store.set, if_neg hk2]
        exact SetUrlGen_txn rng iteration s k hk
    · rename_i hocc
      rw [if_neg hocc]
      obtain ⟨h1, h2, h3, h4⟩ := ih (iteration + 1) (SetUrlGen rng iteration s) h
      refine ⟨h1, ?_, h3, ?_⟩
      · rw [← GetString_congr _ _ _ _ (SetUrlGen_txn rng iteration s _ (urlKey_ne_lengthKey _))]
        exact h2
      · intro k hk hk2
        rw [h4 k hk hk2]
        exact SetUrlGen_txn rng iteration s k hk

/-- The loop fails only with the generation error, after all admitted iterations. -/
theorem SetUrlLoop_err (rng : Rand) (body : Bytes) (left : Nat) :
    ∀ (iteration : Nat) (s : Loop), (SetUrlLoop rng body left iteration s).1 ≠ none →
      (SetUrlLoop rng body left iteration s).1 = some .generate ∧
      (SetUrlLoop rng body left iteration s).2.tried.length = s.tried.length + left := by
  induction left with
  | zero => intro iteration s _; simp [SetUrlLoop]
  | succ n ih =>
    intro iteration s h
    simp only [SetUrlLoop] at h ⊢
    split at h
    · simp at h
    · rename_i hocc
      rw [if_neg hocc]
      obtain ⟨h1, h2⟩ := ih (iteration + 1) (SetUrlGen rng iteration s) h
      refine ⟨h1, ?_⟩
      rw [h2, SetUrlGen_tried]
      simp
      omega

/-- Cached length after the loop, when the loop starts at iteration `tried.length + 1`
and stays below iteration 100. -/
theorem SetUrlLoop_length (rng : Rand) (body : Bytes) (left : Nat) :
    ∀ (iteration : Nat) (s : Loop), iteration = s.tried.length + 1 → iteration + left ≤ 100 →
      s.tried.length ≤ (SetUrlLoop rng body left iteration s).2.tried.length ∧
      (SetUrlLoop rng body left iteration s).2.tried.length ≤ s.tried.length + left ∧
      (SetUrlLoop rng body left iteration s).2.currentLength =
        if iteration ≤ 50 ∧ 50 ≤ (SetUrlLoop rng body left iteration s).2.tried.length
        then (s.currentLength + 1) % two64 else s.currentLength := by
  induction left with
  | zero =>
    intro iteration s h1 _
    simp only [SetUrlLoop]
    refine ⟨le_refl _, le_refl _, ?_⟩
    rw [if_neg]
    omega
  | succ n ih =>
    intro iteration s h1 h2
    simp only [SetUrlLoop]
    have ht : (SetUrlGen rng iteration s).tried.length = iteration := by
      rw [SetUrlGen_tried]; simp; omega
    have hc := SetUrlGen_currentLength rng iteration s
    simp only [beforeIncTrials] at hc
    split
    · simp only [ht]
      refine ⟨by omega, by omega, ?_⟩
      rw [hc]
      by_cases h50 : iteration = 50
      · subst h50; simp
      · rw [if_neg (by omega), if_neg (by omega)]
    · obtain ⟨h3, h4, h5⟩ := ih (iteration + 1) (SetUrlGen rng iteration s) (by omega) (by omega)
      rw [ht] at h3 h4
      refine ⟨by omega, by omega, ?_⟩
      rw [h5, hc]
      split_ifs <;> first | rfl | (exfalso; omega)

theorem SetUrl_of_none (rng : Rand) (body : Bytes) (s : State) (w : ResponseWriter)
    (h : (SetUrlLoop rng body maxTrials 1 (SetUrlStart s)).1 = none) :
    SetUrl rng body s w =
      { err := none, shortener := (SetUrlLoop rng body maxTrials 1 (SetUrlStart s)).2.shortener,
        tried := (SetUrlLoop rng body maxTrials 1 (SetUrlStart s)).2.tried,
        w := w.Write (ascii (serverAddress ++ "/" ++
          (SetUrlLoop rng body maxTrials 1 (SetUrlStart s)).2.shortener)),
        state := { db := (SetUrlLoop rng body maxTrials 1 (SetUrlStart s)).2.txn,
                   currentLength := (SetUrlLoop rng body maxTrials 1 (SetUrlStart s)).2.currentLength,
                   randPos := (SetUrlLoop rng body maxTrials 1 (SetUrlStart s)).2.randPos } } := by
  simp only [SetUrl, h]

theorem SetUrl_of_some (rng : Rand) (body : Bytes) (s : State) (w : ResponseWriter) (e : Failure)
    (h : (SetUrlLoop rng body maxTrials 1 (SetUrlStart s)).1 = some e) :
    SetUrl rng body s w =
      { err := some e, shortener := (SetUrlLoop rng body maxTrials 1 (SetUrlStart s)).2.shortener,
        tried := (SetUrlLoop rng body maxTrials 1 (SetUrlStart s)).2.tried,
        w := FailHTTP w,
        state := { db := s.db,
                   currentLength := (SetUrlLoop rng body maxTrials 1 (SetUrlStart s)).2.currentLength,
                   randPos := (SetUrlLoop rng body maxTrials 1 (SetUrlStart s)).2.randPos } } := by
  simp only [SetUrl, h]

theorem SetUrl_err_none (rng : Rand) (body : Bytes) (s : State) (w : ResponseWriter)
    (h : (SetUrl rng body s w).err = none) :
    (SetUrl rng body s w).shortener ∈ (SetUrl rng body s w).tried ∧
    GetString s.db (urlPrefix ++ (SetUrl rng body s w).shortener) [] = [] ∧
    (SetUrl rng body s w).state.db (urlPrefix ++ (SetUrl rng body s w).shortener) = some body ∧
    (∀ k, k ≠ lengthKey → k ≠ urlPrefix ++ (SetUrl rng body s w).shortener →
      (SetUrl rng body s w).state.db k = s.db k) ∧
    (SetUrl rng body s w).w =
      w.Write (ascii (serverAddress ++ "/" ++ (SetUrl rng body s w).shortener)) := by
  cases hr : (SetUrlLoop rng body maxTrials 1 (SetUrlStart s)).1 with
  | some e => rw [SetUrl_of_some rng body s w e hr] at h; simp at h
  | none =>
    rw [SetUrl_of_none rng body s w hr]
    obtain ⟨h1, h2, h3, h4⟩ := SetUrlLoop_ok rng body maxTrials 1 _ hr
    exact ⟨h1, h2, h3, h4, rfl⟩

theorem SetUrl_err_some (rng : Rand) (body : Bytes) (s : State) (w : ResponseWriter)
    (h : (SetUrl rng body s w).err ≠ none) :
    (SetUrl rng body s w).err = some .generate ∧
    (SetUrl rng body s w).tried.length = maxTrials ∧
    (SetUrl rng body s w).state.db = s.db ∧
    (SetUrl rng body s w).w = FailHTTP w := by
  cases hr : (SetUrlLoop rng body maxTrials 1 (SetUrlStart s)).1 with
  | none => rw [SetUrl_of_none rng body s w hr] at h; simp at h
  | some e =>
    rw [SetUrl_of_some rng body s w e hr]
    obtain ⟨h1, h2⟩ := SetUrlLoop_err rng body maxTrials 1 (SetUrlStart s) (by rw [hr]; simp)
    rw [hr] at h1
    refine ⟨h1, ?_, rfl, rfl⟩
    show (SetUrlLoop rng body maxTrials 1 (SetUrlStart s)).2.tried.length = maxTrials
    rw [h2]; simp [SetUrlStart]

theorem SetUrl_currentLength (rng : Rand) (body : Bytes) (s : State) (w : ResponseWriter) :
    (SetUrl rng body s w).tried.length ≤ maxTrials ∧
    (SetUrl rng body s w).state.currentLength =
      if 50 ≤ (SetUrl rng body s w).tried.length then (s.currentLength + 1) % two64
      else s.currentLength := by
  obtain ⟨_, k2, k3⟩ := SetUrlLoop_length rng body maxTrials 1 (SetUrlStart s) rfl
    (by simp [maxTrials])
  simp only [SetUrlStart, List.length_nil, Nat.zero_add] at k2 k3
  cases hr : (SetUrlLoop rng body maxTrials 1 (SetUrlStart s)).1 with
  | none =>
    rw [SetUrl_of_none rng body s w hr]
    simp only [SetUrlStart]
    refine ⟨k2, ?_⟩
    rw [k3]; simp
  | some e =>
    rw [SetUrl_of_some rng body s w e hr]
    simp only [SetUrlStart]
    refine ⟨k2, ?_⟩
    rw [k3]; simp

/-- A non-empty target is never replaced by `SetUrl`. -/
theorem SetUrl_keeps_target (rng : Rand) (body : Bytes) (s : State) (w : ResponseWriter)
    (c : String) (hc : GetString s.db (urlPrefix ++ c) [] ≠ []) :
    (SetUrl rng body s w).state.db (urlPrefix ++ c) = s.db (urlPrefix ++ c) := by
  by_cases h : (SetUrl rng body s w).err = none
  · obtain ⟨_, h2, _, h4, _⟩ := SetUrl_err_none rng body s w h
    apply h4 _ (urlKey_ne_lengthKey c)
    intro hk
    rw [← hk] at h2
    exact hc h2
  · rw [(SetUrl_err_some rng body s w h).2.2.1]

theorem Incrementer_urlKey (db : Store) (shortener : String) (targetItem : Bytes) (now : Int)
    (c : String) : Incrementer db shortener targetItem now (urlPrefix ++ c) = db (urlPrefix ++ c) := by
  unfold Incrementer IncrementerTxn IncrementCounter IncrementWeekLog
  cases h1 : GetUInt64 db (counterPrefix ++ shortener) 0 with
  | error e => rfl
  | ok counter =>
    simp only
    cases h2 : GetUInt64Array (SetUint64 db (counterPrefix ++ shortener) ((counter + 1) % two64))
        (weekLogPrefix ++ shortener) with
    | error e => rfl
    | ok weekLog =>
      simp only [SetUInt64Array, SetUint64, Store.set,
        if_neg (Ne.symm (weekLogKey_ne_urlKey shortener c)),
        if_neg (Ne.symm (counterKey_ne_urlKey shortener c))]

/-- No operation changes the value under a `url:` key whose target is non-empty. -/
theorem step_keeps_target (rng : Rand) (s : State) (op : Op) (c : String)
    (hc : GetString s.db (urlPrefix ++ c) [] ≠ []) :
    (step rng s op).db (urlPrefix ++ c) = s.db (urlPrefix ++ c) := by
  cases op with
  | setUrl body => exact SetUrl_keeps_target rng body s _ c hc
  | expander sh => rfl
  | urlStat sh now => rfl
  | incrementer sh t now => exact Incrementer_urlKey s.db sh t now c

theorem runSetUrls_codes_free (rng : Rand) (bodies : List Bytes) :
    ∀ s : State, ∀ c ∈ successCodes (runSetUrls rng s bodies).1,
      GetString s.db (urlPrefix ++ c) [] = [] := by
  induction bodies with
  | nil => intro s c hc; simp [runSetUrls, successCodes] at hc
  | cons b rest ih =>
    intro s c hc
    have keep : c ∈ successCodes (runSetUrls rng (SetUrl rng b s .fresh).state rest).1 →
        GetString s.db (urlPrefix ++ c) [] = [] := by
      intro hmem
      by_contra hocc
      have hfree := ih _ c hmem
      rw [GetString_congr _ _ _ _ (SetUrl_keeps_target rng b s .fresh c hocc)] at hfree
      exact hocc hfree
    cases he : (SetUrl rng b s .fresh).err with
    | none =>
      simp only [runSetUrls, he, successCodes, List.mem_cons] at hc
      rcases hc with hc | hc
      · rw [hc]; exact (SetUrl_err_none rng b s .fresh he).2.1
      · exact keep hc
    | some e =>
      simp only [runSetUrls, he, successCodes] at hc
      exact keep hc

/-- With non-empty payloads only, the codes of the successful calls are pairwise distinct,
from any starting state. -/
theorem runSetUrls_codes_nodup (rng : Rand) (bodies : List Bytes) :
    ∀ s : State, (∀ b ∈ bodies, b ≠ []) → (successCodes (runSetUrls rng s bodies).1).Nodup := by
  induction bodies with
  | nil => intro s _; simp [runSetUrls, successCodes]
  | cons b rest ih =>
    intro s hne
    have hrest := ih (SetUrl rng b s .fresh).state (fun x hx => hne x (by simp [hx]))
    cases he : (SetUrl rng b s .fresh).err with
    | none =>
      simp only [runSetUrls, he, successCodes, List.nodup_cons]
      refine ⟨?_, hrest⟩
      intro hmem
      have hfree := runSetUrls_codes_free rng rest _ _ hmem
      have hset := (SetUrl_err_none rng b s .fresh he).2.2.1
      simp only [GetString, hset] at hfree
      exact hne b (by simp) hfree
    | some e =>
      simp only [runSetUrls, he, successCodes]
      exact hrest

/-- After a successful registration of a non-empty payload, `Expander` of the code hands
exactly the payload to `http.Redirect`, with status 308, and starts one accounting update. -/
theorem SetUrl_then_Expander (redirect : HTTPRedirect) (rng : Rand) (body : Bytes) (s : State)
    (w : ResponseWriter) (hb : body ≠ []) (h : (SetUrl rng body s w).err = none) :
    Expander redirect (SetUrl rng body s w).state.db (SetUrl rng body s w).shortener .fresh =
      { w := redirect .fresh (SetUrl rng body s w).shortener body 308,
        spawned := [((SetUrl rng body s w).shortener, body)] } := by
  have hset := (SetUrl_err_none rng body s w h).2.2.1
  simp only [Expander, GetString, hset, if_neg hb]

/-! ## Registration: uniqueness, round trip, immutability, retry budget, length -/

theorem lengthTrace_ge (rng : Rand) (bodies : List Bytes) :
    ∀ s : State, (∀ L ∈ (lengthTrace rng s bodies).dropLast, L < two64 - 1) →
      ∀ x ∈ lengthTrace rng s bodies, s.currentLength ≤ x := by
  induction bodies with
  | nil => intro s _ x hx; simp [lengthTrace] at hx; omega
  | cons b rest ih =>
    intro s hL x hx
    have hne : lengthTrace rng (SetUrl rng b s .fresh).state rest ≠ [] := by
      cases rest <;> simp [lengthTrace]
    simp only [lengthTrace, List.dropLast_cons_of_ne_nil hne, List.mem_cons] at hL hx
    rcases hx with hx | hx
    · omega
    · have h1 := ih _ (fun L hLm => hL L (Or.inr hLm)) x hx
      have h2 := (SetUrl_currentLength rng b s .fresh).2
      have h3 := hL s.currentLength (Or.inl rfl)
      have h4 : (s.currentLength + 1) % two64 = s.currentLength + 1 :=
        Nat.mod_eq_of_lt (by omega)
      rw [h4] at h2
      split at h2 <;> omega

theorem lengthTrace_pairwise (rng : Rand) (bodies : List Bytes) :
    ∀ s : State, (∀ L ∈ (lengthTrace rng s bodies).dropLast, L < two64 - 1) →
      (lengthTrace rng s bodies).Pairwise (fun a b => a ≤ b) := by
  induction bodies with
  | nil => intro s _; simp [lengthTrace]
  | cons b rest ih =>
    intro s hL
    have hge := lengthTrace_ge rng (b :: rest) s hL
    have hne : lengthTrace rng (SetUrl rng b s .fresh).state rest ≠ [] := by
      cases rest <;> simp [lengthTrace]
    simp only [lengthTrace, List.dropLast_cons_of_ne_nil hne, List.mem_cons] at hL hge
    simp only [lengthTrace, List.pairwise_cons]
    exact ⟨fun x hx => hge x (Or.inr hx), ih _ (fun L hLm => hL L (Or.inr hLm))⟩

theorem GetUInt64_SetUint64_same (txn : Store) (key : String) (v d : Nat) (hv : v < two64) :
    GetUInt64 (SetUint64 txn key v) key d = .ok v := by
  simp only [GetUInt64, SetUint64, Store.set_same]
  have := bigEndianUint64_uint64ToBytes v hv []
  simpa using this

/-- The loop keeps the cached length equal to what the transaction holds under `lengthKey`. -/
theorem SetUrlLoop_consistent (rng : Rand) (body : Bytes) (left : Nat) :
    ∀ (iteration : Nat) (s : Loop), GetUInt64 s.txn lengthKey 4 = .ok s.currentLength →
      GetUInt64 (SetUrlLoop rng body left iteration s).2.txn lengthKey 4 =
        .ok (SetUrlLoop rng body left iteration s).2.currentLength := by
  induction left with
  | zero => intro iteration s h; simpa [SetUrlLoop] using h
  | succ n ih =>
    intro iteration s h
    have hgen : GetUInt64 (SetUrlGen rng iteration s).txn lengthKey 4 =
        .ok (SetUrlGen rng iteration s).currentLength := by
      unfold SetUrlGen
      by_cases hi : iteration % beforeIncTrials = 0
      · simp only [hi, if_true]
        exact GetUInt64_SetUint64_same _ _ _ _ (Nat.mod_lt _ (by simp [two64]))
      · simp only [hi, if_false]
        exact h
    simp only [SetUrlLoop]
    split
    · simp only [SetString]
      rw [GetUInt64, Store.set_other _ _ _ _ (Ne.symm (urlKey_ne_lengthKey _))]
      exact hgen
    · exact ih _ _ hgen

/-- A successful call keeps the cached length in agreement with the store. -/
theorem SetUrl_success_consistent (rng : Rand) (body : Bytes) (s : State) (w : ResponseWriter)
    (hs : cacheConsistent s) (h : (SetUrl rng body s w).err = none) :
    cacheConsistent (SetUrl rng body s w).state := by
  cases hr : (SetUrlLoop rng body maxTrials 1 (SetUrlStart s)).1 with
  | some e => rw [SetUrl_of_some rng body s w e hr] at h; simp at h
  | none =>
    rw [SetUrl_of_none rng body s w hr]
    exact SetUrlLoop_consistent rng body maxTrials 1 (SetUrlStart s) hs

/-- C1, at a failing input: from the empty store, with every draw 0, registering the empty
payload and then `https://example.com/page` succeeds twice and returns the code `aaaa`
both times, so the codes of the successful calls are not pairwise distinct. -/
theorem SetUrl_empty_payload_code_reused :
    (runSetUrls zeroRand freshState [[], ascii "https://example.com/page"]).1
      = [(none, "aaaa"), (none, "aaaa")] ∧
    ¬ (successCodes
        (runSetUrls zeroRand freshState [[], ascii "https://example.com/page"]).1).Nodup := by
  decide

/-- C2, at a failing input: registering the empty payload succeeds with code `aaaa` and
the success response, and `Expander` of `aaaa` on the resulting store answers 404
`URL not found` with no redirect (whatever `http.Redirect` does, it is not called) and
starts no accounting update. -/
theorem SetUrl_empty_payload_not_found :
    (SetUrl zeroRand [] freshState .fresh).err = none ∧
    (SetUrl zeroRand [] freshState .fresh).shortener = "aaaa" ∧
    (SetUrl zeroRand [] freshState .fresh).w.status = some 200 ∧
    (SetUrl zeroRand [] freshState .fresh).state.db (urlPrefix ++ "aaaa") = some [] ∧
    ∀ redirect : HTTPRedirect,
      Expander redirect (SetUrl zeroRand [] freshState .fresh).state.db "aaaa" .fresh =
        { w := ⟨some 404, none, ascii "URL not found"⟩, spawned := [] } :=
  ⟨by decide, by decide, by decide, by decide, fun _ => rfl⟩

/-- C3, at a failing input: after the empty payload was registered the key `url:aaaa` is
present with the empty target; a further `SetUrl` drawing the same code replaces that
stored target by its own payload. -/
theorem SetUrl_overwrites_empty_target :
    (SetUrl zeroRand [] freshState .fresh).state.db (urlPrefix ++ "aaaa") = some [] ∧
    (step zeroRand (SetUrl zeroRand [] freshState .fresh).state
      (.setUrl (ascii "https://example.com/page"))).db (urlPrefix ++ "aaaa")
      = some (ascii "https://example.com/page") := by
  decide

/-- C4, at a failing input: after the empty payload was registered the key `url:aaaa` is
present; a further `SetUrl` whose draws give `aaaa` generates that one candidate, whose key
is present, and yet succeeds at iteration 1 with the success response and replaces the
stored target: it neither runs through 80 candidates, nor fails, nor leaves the store as
it was. -/
theorem SetUrl_taken_empty_target_succeeds :
    (SetUrl zeroRand [] freshState .fresh).state.db (urlPrefix ++ "aaaa") = some [] ∧
    (SetUrl zeroRand (ascii "x") (SetUrl zeroRand [] freshState .fresh).state .fresh).tried
      = ["aaaa"] ∧
    (∀ c ∈ (SetUrl zeroRand (ascii "x") (SetUrl zeroRand [] freshState .fresh).state
        .fresh).tried,
      (SetUrl zeroRand [] freshState .fresh).state.db (urlPrefix ++ c) ≠ none) ∧
    (SetUrl zeroRand (ascii "x") (SetUrl zeroRand [] freshState .fresh).state .fresh).err
      = none ∧
    (SetUrl zeroRand (ascii "x") (SetUrl zeroRand [] freshState .fresh).state .fresh).w.status
      = some 200 ∧
    (SetUrl zeroRand (ascii "x") (SetUrl zeroRand [] freshState .fresh).state .fresh).state.db
      (urlPrefix ++ "aaaa") = some (ascii "x") := by
  decide

/-- When the lookup finds a non-empty target for every candidate the call generates, the
call generates exactly `maxTrials` = 80 candidates, its closure returns the generation
error, the response is the 500 failure, and the store is the store before the call; in
particular nothing is stored under `settings:last_length`. -/
theorem SetUrl_exhausted (rng : Rand) (body : Bytes) (s : State) (w : ResponseWriter)
    (hall : ∀ c ∈ (SetUrl rng body s w).tried, GetString s.db (urlPrefix ++ c) [] ≠ []) :
    (SetUrl rng body s w).tried.length = maxTrials ∧ maxTrials = 80 ∧
    (SetUrl rng body s w).err = some Failure.generate ∧
    (SetUrl rng body s w).w = FailHTTP w ∧
    (SetUrl rng body s w).state.db = s.db ∧
    (SetUrl rng body s w).state.db lengthKey = s.db lengthKey := by
  have hne : (SetUrl rng body s w).err ≠ none := by
    intro h
    obtain ⟨h1, h2, _⟩ := SetUrl_err_none rng body s w h
    exact hall _ h1 h2
  obtain ⟨h1, h2, h3, h4⟩ := SetUrl_err_some rng body s w hne
  exact ⟨h2, rfl, h1, h4, h3, by rw [h3]⟩

theorem SetUrl_exhausted_witness :
    (∀ c ∈ (SetUrl zeroRand (ascii "x") ⟨takenStore, 4, 0⟩ .fresh).tried,
      GetString takenStore (urlPrefix ++ c) [] ≠ []) ∧
    (SetUrl zeroRand (ascii "x") ⟨takenStore, 4, 0⟩ .fresh).tried.length = 80 ∧
    (SetUrl zeroRand (ascii "x") ⟨takenStore, 4, 0⟩ .fresh).err = some Failure.generate ∧
    (SetUrl zeroRand (ascii "x") ⟨takenStore, 4, 0⟩ .fresh).state.db = takenStore :=
  have h := SetUrl_exhausted zeroRand (ascii "x") ⟨takenStore, 4, 0⟩ .fresh (by decide)
  ⟨by decide, h.1, h.2.2.1, h.2.2.2.2.1⟩

/-- C5, at a failing input: with the codes `aaaa` and `aaaaa` taken, `currentLength = 4`
and nothing stored under `settings:last_length`, the cache agrees with the store before
the call; the call fails with the generation error, the store is unchanged, yet the
cached length is 5 afterwards, so cache and store no longer agree. -/
theorem SetUrl_failure_keeps_length_step :
    cacheConsistent ⟨takenStore, 4, 0⟩ ∧
    (SetUrl zeroRand (ascii "x") ⟨takenStore, 4, 0⟩ .fresh).err = some Failure.generate ∧
    (SetUrl zeroRand (ascii "x") ⟨takenStore, 4, 0⟩ .fresh).state.db lengthKey = none ∧
    (SetUrl zeroRand (ascii "x") ⟨takenStore, 4, 0⟩ .fresh).state.currentLength = 5 ∧
    ¬ cacheConsistent (SetUrl zeroRand (ascii "x") ⟨takenStore, 4, 0⟩ .fresh).state := by
  decide

/-- C6: a call that starts with cached length `L < 2^64 - 1` leaves the cached length at `L`
when it generated fewer than 50 candidates (the loop ended before iteration 50) and at
`L + 1` when it reached iteration 50; among the iterations 1..80 only iteration 50 satisfies
the increment test; and along any sequence of calls each of which starts below `2^64 - 1`
the cached lengths never decrease. -/
theorem SetUrl_length_step (rng : Rand) (body : Bytes) (s : State) (w : ResponseWriter)
    (hL : s.currentLength < two64 - 1) :
    ((SetUrl rng body s w).tried.length < beforeIncTrials →
      (SetUrl rng body s w).state.currentLength = s.currentLength) ∧
    (beforeIncTrials ≤ (SetUrl rng body s w).tried.length →
      (SetUrl rng body s w).state.currentLength = s.currentLength + 1) ∧
    (∀ i, 1 ≤ i → i ≤ maxTrials → (i % beforeIncTrials = 0 ↔ i = 50)) ∧
    (∀ bodies : List Bytes, (∀ L ∈ (lengthTrace rng s bodies).dropLast, L < two64 - 1) →
      (lengthTrace rng s bodies).Pairwise (fun a b => a ≤ b)) := by
  have h2 := (SetUrl_currentLength rng body s w).2
  have h4 : (s.currentLength + 1) % two64 = s.currentLength + 1 := Nat.mod_eq_of_lt (by omega)
  rw [h4] at h2
  simp only [beforeIncTrials, maxTrials]
  refine ⟨?_, ?_, ?_, ?_⟩
  · intro h; rw [h2, if_neg (by omega)]
  · intro h; rw [h2, if_pos h]
  · intro i h1 h80; omega
  · intro bodies hb; exact lengthTrace_pairwise rng bodies s hb

theorem SetUrl_length_step_witness :
    (4 : Nat) < two64 - 1 ∧
    (SetUrl zeroRand (ascii "x") ⟨takenStore, 4, 0⟩ .fresh).tried.length = 80 ∧
    (SetUrl zeroRand (ascii "x") ⟨takenStore, 4, 0⟩ .fresh).state.currentLength = 4 + 1 ∧
    (SetUrl zeroRand (ascii "x") freshState .fresh).tried.length = 1 ∧
    (SetUrl zeroRand (ascii "x") freshState .fresh).state.currentLength = 4 :=
  ⟨by decide, by decide,
    (SetUrl_length_step zeroRand (ascii "x") ⟨takenStore, 4, 0⟩ .fresh (by decide)).2.1
      (by decide),
    by decide,
    (SetUrl_length_step zeroRand (ascii "x") freshState .fresh (by decide)).1 (by decide)⟩

/-! ## Hit accounting and statistics -/

theorem counterKey_ne_weekLogKey (a c : String) : counterPrefix ++ a ≠ weekLogPrefix ++ c := by
  intro h
  have := congrArg String.data h
  simp [weekLogPrefix, counterPrefix, String.data_append] at this

theorem GetUInt64Array_lt (txn : Store) (key : String) (arr : List Nat)
    (h : GetUInt64Array txn key = .ok arr) : ∀ x ∈ arr, x < two64 := by
  unfold GetUInt64Array at h
  cases hk : txn key with
  | none => rw [hk] at h; simp at h; subst h; simp
  | some val => rw [hk] at h; exact decodeUInt64Array_lt val arr h

theorem GetUInt64Array_SetUInt64Array (txn : Store) (key : String) (arr : List Nat)
    (h : ∀ x ∈ arr, x < two64) :
    GetUInt64Array (SetUInt64Array txn key arr) key = .ok arr := by
  simp only [GetUInt64Array, SetUInt64Array, Store.set_same]
  exact decodeUInt64Array_encodeUInt64Array arr h

theorem countHits_eq (weekAgo dayAgo : Nat) (l : List Nat) :
    ∀ c : Nat × Nat, c.1 < two64 → c.2 < two64 →
      countHits weekAgo dayAgo l c =
        ((c.1 + (l.filter (fun ts => decide (weekAgo < ts))).length) % two64,
         (c.2 + (l.filter (fun ts => decide (dayAgo < ts))).length) % two64) := by
  induction l with
  | nil =>
    intro c h1 h2
    simp [countHits, Nat.mod_eq_of_lt h1, Nat.mod_eq_of_lt h2]
  | cons ts rest ih =>
    intro c h1 h2
    have hpos : 0 < two64 := by simp [two64]
    simp only [countHits]
    have b1 : (if ts > weekAgo then (c.1 + 1) % two64 else c.1) < two64 := by
      split <;> first | exact Nat.mod_lt _ hpos | exact h1
    have b2 : (if ts > dayAgo then (c.2 + 1) % two64 else c.2) < two64 := by
      split <;> first | exact Nat.mod_lt _ hpos | exact h2
    rw [ih _ b1 b2]
    by_cases hw : weekAgo < ts <;> by_cases hd : dayAgo < ts <;>
      simp [hw, hd, List.filter_cons, Nat.add_assoc, Nat.add_comm 1]

theorem toUint64_toNat (x : Int) (h0 : 0 ≤ x) (h1 : x < 9223372036854775808) :
    toUint64 x = x.toNat := by
  unfold toUint64 two64
  omega

theorem filter_after (x : Int) (h0 : 0 ≤ x) (l : List Nat) :
    l.filter (fun ts => decide (x.toNat < ts)) = l.filter (fun (ts : Nat) => decide (x < (ts : Int))) := by
  apply List.filter_congr
  intro ts _
  have : x.toNat < ts ↔ x < (ts : Int) := by omega
  simp [this]

/-- C7: for a stored list `old` and a time `now` at least 7 days after the epoch (and in
the `int64` range of `UnixNano`), `IncrementWeekLog` stores the encoding of exactly the
entries of `old ++ [now]` that are strictly greater than `now - 7 days`, in their order;
reading the key back returns that list; every retained entry is newer than `now - 7 days`;
and its length is at most the number of such entries of `old` plus one. -/
theorem IncrementWeekLog_prunes (txn : Store) (weekLogKey : String) (old : List Nat) (now : Int)
    (hold : GetUInt64Array txn weekLogKey = .ok old)
    (hlo : 7 * 24 * hour ≤ now) (hhi : now < 9223372036854775808) :
    IncrementWeekLog txn weekLogKey now =
      .ok (SetUInt64Array txn weekLogKey
        ((old ++ [now.toNat]).filter (fun (ts : Nat) => decide (now - 7 * 24 * hour < (ts : Int))))) ∧
    GetUInt64Array (SetUInt64Array txn weekLogKey
        ((old ++ [now.toNat]).filter (fun (ts : Nat) => decide (now - 7 * 24 * hour < (ts : Int)))))
      weekLogKey =
      .ok ((old ++ [now.toNat]).filter (fun (ts : Nat) => decide (now - 7 * 24 * hour < (ts : Int)))) ∧
    (∀ ts ∈ (old ++ [now.toNat]).filter (fun (ts : Nat) => decide (now - 7 * 24 * hour < (ts : Int))),
      now - 7 * 24 * hour < (ts : Int)) ∧
    ((old ++ [now.toNat]).filter (fun (ts : Nat) => decide (now - 7 * 24 * hour < (ts : Int)))).length ≤
      (old.filter (fun (ts : Nat) => decide (now - 7 * 24 * hour < (ts : Int)))).length + 1 := by
  have hh : hour = 3600000000000 := rfl
  have e1 : toUint64 now = now.toNat := toUint64_toNat now (by omega) hhi
  have e2 : toUint64 (now - 7 * 24 * hour) = (now - 7 * 24 * hour).toNat :=
    toUint64_toNat _ (by omega) (by omega)
  refine ⟨?_, ?_, ?_, ?_⟩
  · simp only [IncrementWeekLog, hold, e1, e2, cleanWeekLog_eq_filter]
    rw [filter_after _ (by omega)]
  · apply GetUInt64Array_SetUInt64Array
    intro x hx
    rcases List.mem_append.1 (List.mem_filter.1 hx).1 with h | h
    · exact GetUInt64Array_lt txn weekLogKey old hold x h
    · simp only [List.mem_singleton] at h
      simp only [two64]
      omega
  · intro ts hts
    simpa using (List.mem_filter.1 hts).2
  · rw [List.filter_append, List.length_append]
    exact Nat.add_le_add_left (List.length_filter_le _ _) _

theorem IncrementWeekLog_prunes_witness :
    GetUInt64Array (Store.empty.set (weekLogPrefix ++ "aaaa")
        (encodeUInt64Array [100000000000000, 900000000000000]))
      (weekLogPrefix ++ "aaaa") = .ok [100000000000000, 900000000000000] ∧
    IncrementWeekLog (Store.empty.set (weekLogPrefix ++ "aaaa")
        (encodeUInt64Array [100000000000000, 900000000000000]))
      (weekLogPrefix ++ "aaaa") 1000000000000000 =
      .ok (SetUInt64Array (Store.empty.set (weekLogPrefix ++ "aaaa")
        (encodeUInt64Array [100000000000000, 900000000000000])) (weekLogPrefix ++ "aaaa")
        (([100000000000000, 900000000000000] ++ [(1000000000000000 : Int).toNat]).filter
          (fun (ts : Nat) => decide ((1000000000000000 : Int) - 7 * 24 * hour < (ts : Int))))) :=
  ⟨by decide,
    (IncrementWeekLog_prunes (Store.empty.set (weekLogPrefix ++ "aaaa")
        (encodeUInt64Array [100000000000000, 900000000000000]))
      (weekLogPrefix ++ "aaaa") [100000000000000, 900000000000000] 1000000000000000
      (by decide) (by decide) (by decide)).1⟩

theorem countHits_zero (weekAgo dayAgo : Int) (h0 : 0 ≤ weekAgo) (h1 : 0 ≤ dayAgo)
    (l : List Nat) (hlen : l.length < two64) :
    countHits weekAgo.toNat dayAgo.toNat l (0, 0) =
      ((l.filter (fun (ts : Nat) => decide (weekAgo < (ts : Int)))).length,
       (l.filter (fun (ts : Nat) => decide (dayAgo < (ts : Int)))).length) := by
  rw [countHits_eq _ _ _ _ (by simp [two64]) (by simp [two64]),
    filter_after _ h0, filter_after _ h1]
  have a := List.length_filter_le (fun (ts : Nat) => decide (weekAgo < (ts : Int))) l
  have b := List.length_filter_le (fun (ts : Nat) => decide (dayAgo < (ts : Int))) l
  simp only [Nat.zero_add]
  rw [Nat.mod_eq_of_lt (by omega), Nat.mod_eq_of_lt (by omega)]

theorem URLStatView_eq (db : Store) (shortener : String) (now : Int) (w : ResponseWriter)
    (old : List Nat) (counter : Nat)
    (hmap : GetString db (urlPrefix ++ shortener) [] ≠ [])
    (hcnt : GetUInt64 db (counterPrefix ++ shortener) 0 = .ok counter)
    (hlog : GetUInt64Array db (weekLogPrefix ++ shortener) = .ok old)
    (hlen : old.length < two64)
    (hlo : 7 * 24 * hour ≤ now) (hhi : now < 9223372036854775808) :
    URLStatView db shortener now w =
      .ok (w, ⟨GetString db (urlPrefix ++ shortener) [], counter,
        (old.filter (fun (ts : Nat) => decide (now - 7 * 24 * hour < (ts : Int)))).length,
        (old.filter (fun (ts : Nat) => decide (now - 24 * hour < (ts : Int)))).length⟩) := by
  have hh : hour = 3600000000000 := rfl
  have e1 : toUint64 (now - 24 * hour) = (now - 24 * hour).toNat :=
    toUint64_toNat _ (by omega) (by omega)
  have e2 : toUint64 (now - 7 * 24 * hour) = (now - 7 * 24 * hour).toNat :=
    toUint64_toNat _ (by omega) (by omega)
  simp only [URLStatView, if_neg hmap, hcnt, hlog, e1, e2]
  rw [countHits_zero _ _ (by omega) (by omega) old hlen]

/-- C8, as stated, fails.  At `now` = 7 days + 1 ns, with a target stored for `aaaa` and the
week log `[now, now - 2h, now - 3d, now - 8d]` as the program converts instants to `uint64`,
the instant 8 days back lies before the epoch, its conversion wraps to a value above both
thresholds, and `URLStat` reports weekCounter = 4 and dayCounter = 3, not 3 and 2.  And at
a store where the key `url:aaaa` is present with the empty target beside a four-entry week
log, `URLStat` takes its 404 branch and reports 0 and 0. -/
theorem URLStat_counts_early_epoch :
    7 * 24 * hour ≤ earlyNow ∧
    GetString earlyStore (urlPrefix ++ "aaaa") [] = ascii "x" ∧
    GetUInt64Array earlyStore (weekLogPrefix ++ "aaaa") =
      .ok [toUint64 earlyNow, toUint64 (earlyNow - 2 * hour),
        toUint64 (earlyNow - 3 * 24 * hour), toUint64 (earlyNow - 8 * 24 * hour)] ∧
    toUint64 (earlyNow - 8 * 24 * hour) = 18446657673709551617 ∧
    URLStatView earlyStore "aaaa" earlyNow .fresh = .ok (.fresh, ⟨ascii "x", 0, 4, 3⟩) ∧
    emptyTargetStatStore (urlPrefix ++ "aaaa") = some [] ∧
    GetUInt64Array emptyTargetStatStore (weekLogPrefix ++ "aaaa") =
      .ok [toUint64 sampleNow, toUint64 (sampleNow - 2 * hour),
        toUint64 (sampleNow - 3 * 24 * hour), toUint64 (sampleNow - 8 * 24 * hour)] ∧
    URLStatView emptyTargetStatStore "aaaa" sampleNow .fresh =
      .ok (⟨some 404, none, ascii "URL not found"⟩, ⟨[], 0, 0, 0⟩) := by
  decide

/-- C8, amended: for a code whose stored target is non-empty, a stored list `old`, a stored
counter and a time `now` at least 7 days after the epoch, `URLStat` leaves the response
untouched inside its transaction and reports weekCounter = number of entries strictly
greater than `now - 7 days` and dayCounter = number of entries strictly greater than
`now - 24 hours`; the text it writes carries these numbers; replacing the stored counter by
any value changes neither count; and when `now` is at least 8 days after the epoch, for the
list `[now, now - 2h, now - 3d, now - 8d]`, each instant converted as the program converts
it, the counts are dayCounter = 2 and weekCounter = 3. -/
theorem URLStat_windowed_counts (db : Store) (shortener : String) (now : Int)
    (w : ResponseWriter) (old : List Nat) (counter : Nat)
    (hmap : GetString db (urlPrefix ++ shortener) [] ≠ [])
    (hcnt : GetUInt64 db (counterPrefix ++ shortener) 0 = .ok counter)
    (hlog : GetUInt64Array db (weekLogPrefix ++ shortener) = .ok old)
    (hlen : old.length < two64)
    (hlo : 7 * 24 * hour ≤ now) (hhi : now < 9223372036854775808) :
    URLStatView db shortener now w =
      .ok (w, ⟨GetString db (urlPrefix ++ shortener) [], counter,
        (old.filter (fun (ts : Nat) => decide (now - 7 * 24 * hour < (ts : Int)))).length,
        (old.filter (fun (ts : Nat) => decide (now - 24 * hour < (ts : Int)))).length⟩) ∧
    URLStat db shortener now w =
      .ok (w.Write (statText shortener ⟨GetString db (urlPrefix ++ shortener) [], counter,
        (old.filter (fun (ts : Nat) => decide (now - 7 * 24 * hour < (ts : Int)))).length,
        (old.filter (fun (ts : Nat) => decide (now - 24 * hour < (ts : Int)))).length⟩)) ∧
    (∀ v, v < two64 →
      URLStatView (SetUint64 db (counterPrefix ++ shortener) v) shortener now w =
        .ok (w, ⟨GetString db (urlPrefix ++ shortener) [], v,
          (old.filter (fun (ts : Nat) => decide (now - 7 * 24 * hour < (ts : Int)))).length,
          (old.filter (fun (ts : Nat) => decide (now - 24 * hour < (ts : Int)))).length⟩)) ∧
    (8 * 24 * hour ≤ now →
      old = [toUint64 now, toUint64 (now - 2 * hour), toUint64 (now - 3 * 24 * hour),
        toUint64 (now - 8 * 24 * hour)] →
      (old.filter (fun (ts : Nat) => decide (now - 24 * hour < (ts : Int)))).length = 2 ∧
      (old.filter (fun (ts : Nat) => decide (now - 7 * 24 * hour < (ts : Int)))).length = 3) := by
  have hview := URLStatView_eq db shortener now w old counter hmap hcnt hlog hlen hlo hhi
  refine ⟨hview, ?_, ?_, ?_⟩
  · simp only [URLStat, hview]
  · intro v hv
    have k1 : GetString (SetUint64 db (counterPrefix ++ shortener) v) (urlPrefix ++ shortener) []
        = GetString db (urlPrefix ++ shortener) [] :=
      GetString_congr _ _ _ _
        (Store.set_other _ _ _ _ (Ne.symm (counterKey_ne_urlKey shortener shortener)))
    have k2 : GetUInt64Array (SetUint64 db (counterPrefix ++ shortener) v)
        (weekLogPrefix ++ shortener) = .ok old := by
      rw [← hlog]
      simp only [GetUInt64Array, SetUint64,
        Store.set_other _ _ _ _ (Ne.symm (counterKey_ne_weekLogKey shortener shortener))]
    have h := URLStatView_eq (SetUint64 db (counterPrefix ++ shortener) v) shortener now w old v
      (by rw [k1]; exact hmap) (GetUInt64_SetUint64_same _ _ _ _ hv) k2 hlen hlo hhi
    rw [h, k1]
  · intro h8 hold
    have hh : hour = 3600000000000 := rfl
    rw [toUint64_toNat now (by omega) hhi, toUint64_toNat (now - 2 * hour) (by omega) (by omega),
      toUint64_toNat (now - 3 * 24 * hour) (by omega) (by omega),
      toUint64_toNat (now - 8 * 24 * hour) (by omega) (by omega)] at hold
    subst hold
    have a1 : now - 24 * hour < ((now.toNat : Nat) : Int) := by omega
    have a2 : now - 24 * hour < (((now - 2 * hour).toNat : Nat) : Int) := by omega
    have a3 : ¬ now - 24 * hour < (((now - 3 * 24 * hour).toNat : Nat) : Int) := by omega
    have a4 : ¬ now - 24 * hour < (((now - 8 * 24 * hour).toNat : Nat) : Int) := by omega
    have b1 : now - 7 * 24 * hour < ((now.toNat : Nat) : Int) := by omega
    have b2 : now - 7 * 24 * hour < (((now - 2 * hour).toNat : Nat) : Int) := by omega
    have b3 : now - 7 * 24 * hour < (((now - 3 * 24 * hour).toNat : Nat) : Int) := by omega
    have b4 : ¬ now - 7 * 24 * hour < (((now - 8 * 24 * hour).toNat : Nat) : Int) := by omega
    simp only [List.filter_cons, List.filter_nil, a1, a2, a3, a4, b1, b2, b3, b4, decide_True,
      decide_False, if_true, Bool.false_eq_true, if_false, List.length_cons, List.length_nil]
    simp

theorem URLStat_windowed_counts_witness :
    GetString statStore (urlPrefix ++ "aaaa") [] ≠ [] ∧
    GetUInt64 statStore (counterPrefix ++ "aaaa") 0 = .ok 0 ∧
    GetUInt64Array statStore (weekLogPrefix ++ "aaaa") =
      .ok [toUint64 sampleNow, toUint64 (sampleNow - 2 * hour),
        toUint64 (sampleNow - 3 * 24 * hour), toUint64 (sampleNow - 8 * 24 * hour)] ∧
    8 * 24 * hour ≤ sampleNow ∧
    URLStatView statStore "aaaa" sampleNow .fresh =
      .ok (.fresh, ⟨GetString statStore (urlPrefix ++ "aaaa") [], 0,
        (List.filter (fun (ts : Nat) => decide (sampleNow - 7 * 24 * hour < (ts : Int)))
          [toUint64 sampleNow, toUint64 (sampleNow - 2 * hour),
            toUint64 (sampleNow - 3 * 24 * hour), toUint64 (sampleNow - 8 * 24 * hour)]).length,
        (List.filter (fun (ts : Nat) => decide (sampleNow - 24 * hour < (ts : Int)))
          [toUint64 sampleNow, toUint64 (sampleNow - 2 * hour),
            toUint64 (sampleNow - 3 * 24 * hour), toUint64 (sampleNow - 8 * 24 * hour)]).length⟩) ∧
    (List.filter (fun (ts : Nat) => decide (sampleNow - 24 * hour < (ts : Int)))
      [toUint64 sampleNow, toUint64 (sampleNow - 2 * hour),
        toUint64 (sampleNow - 3 * 24 * hour), toUint64 (sampleNow - 8 * 24 * hour)]).length = 2 ∧
    (List.filter (fun (ts : Nat) => decide (sampleNow - 7 * 24 * hour < (ts : Int)))
      [toUint64 sampleNow, toUint64 (sampleNow - 2 * hour),
        toUint64 (sampleNow - 3 * 24 * hour), toUint64 (sampleNow - 8 * 24 * hour)]).length = 3 :=
  have h := URLStat_windowed_counts statStore "aaaa" sampleNow .fresh
    [toUint64 sampleNow, toUint64 (sampleNow - 2 * hour),
      toUint64 (sampleNow - 3 * 24 * hour), toUint64 (sampleNow - 8 * 24 * hour)] 0
    (by decide) (by decide) (by decide) (by decide) (by decide) (by decide)
  ⟨by decide, by decide, by decide, by decide, h.1, h.2.2.2 (by decide) rfl⟩

/-- C9, at a failing input: after the empty payload was registered the key `url:aaaa` is
present, with the empty target; `Expander` of `aaaa` answers status 404 with body
`URL not found`, does not call `http.Redirect` and starts no accounting update. -/
theorem Expander_present_key_not_found :
    (SetUrl zeroRand [] freshState .fresh).state.db (urlPrefix ++ "aaaa") = some [] ∧
    ∀ redirect : HTTPRedirect,
      (Expander redirect (SetUrl zeroRand [] freshState .fresh).state.db "aaaa" .fresh).w
        = ⟨some 404, none, ascii "URL not found"⟩ ∧
      (Expander redirect (SetUrl zeroRand [] freshState .fresh).state.db "aaaa" .fresh).spawned
        = [] :=
  ⟨by decide, fun _ => ⟨rfl, rfl⟩⟩

/-- What `Expander` does in each case of its lookup: with no target under `url:<code>` (the
key absent, or holding the empty target) it answers status 404 with body `URL not found`
and starts no accounting update; with a non-empty target it hands exactly that target and
status 308 to `http.Redirect` and starts exactly one accounting update, for that code and
target; the operation leaves the state as it was. -/
theorem Expander_lookup (redirect : HTTPRedirect) (rng : Rand) (s : State)
    (shortener : String) :
    (GetString s.db (urlPrefix ++ shortener) [] = [] →
      Expander redirect s.db shortener .fresh =
        { w := ⟨some 404, none, ascii "URL not found"⟩, spawned := [] }) ∧
    (s.db (urlPrefix ++ shortener) = none →
      Expander redirect s.db shortener .fresh =
        { w := ⟨some 404, none, ascii "URL not found"⟩, spawned := [] }) ∧
    (∀ target, s.db (urlPrefix ++ shortener) = some target → target ≠ [] →
      Expander redirect s.db shortener .fresh =
        { w := redirect .fresh shortener target 308, spawned := [(shortener, target)] }) ∧
    step rng s (.expander shortener) = s := by
  refine ⟨?_, ?_, ?_, rfl⟩
  · intro h
    simp only [Expander, h, if_true]
    rfl
  · intro h
    have h2 : GetString s.db (urlPrefix ++ shortener) [] = [] := by simp [GetString, h]
    simp only [Expander, h2, if_true]
    rfl
  · intro target h hne
    have h2 : GetString s.db (urlPrefix ++ shortener) [] = target := by simp [GetString, h]
    simp only [Expander, h2, if_neg hne]

/-- C10: when the read of `hits:overall:<code>` gives `previous` (0 for an absent key),
`IncrementCounter` succeeds, stores the 8-byte encoding of `(previous + 1) mod 2^64` under
that key and changes no other key; reading the key back gives `(previous + 1) mod 2^64`,
which is `previous + 1` whenever `previous < 2^64 - 1`. -/
theorem IncrementCounter_adds_one (txn : Store) (code : String) (previous : Nat)
    (hprev : GetUInt64 txn (counterPrefix ++ code) 0 = .ok previous) :
    IncrementCounter txn (counterPrefix ++ code) =
      .ok (txn.set (counterPrefix ++ code) (uint64ToBytes ((previous + 1) % two64))) ∧
    GetUInt64 (txn.set (counterPrefix ++ code) (uint64ToBytes ((previous + 1) % two64)))
      (counterPrefix ++ code) 0 = .ok ((previous + 1) % two64) ∧
    (∀ k, k ≠ counterPrefix ++ code →
      (txn.set (counterPrefix ++ code) (uint64ToBytes ((previous + 1) % two64))) k = txn k) ∧
    (txn (counterPrefix ++ code) = none → previous = 0) ∧
    (previous < two64 - 1 →
      GetUInt64 (txn.set (counterPrefix ++ code) (uint64ToBytes ((previous + 1) % two64)))
        (counterPrefix ++ code) 0 = .ok (previous + 1)) := by
  have hrt := GetUInt64_SetUint64_same txn (counterPrefix ++ code) ((previous + 1) % two64) 0
    (Nat.mod_lt _ (by simp [two64]))
  simp only [SetUint64] at hrt
  refine ⟨?_, hrt, ?_, ?_, ?_⟩
  · simp only [IncrementCounter, hprev, SetUint64]
  · intro k hk
    exact Store.set_other _ _ _ _ hk
  · intro h
    simp only [GetUInt64, h] at hprev
    injection hprev with hprev
    exact hprev.symm
  · intro h
    rw [hrt, Nat.mod_eq_of_lt (by omega)]

theorem IncrementCounter_adds_one_witness :
    GetUInt64 (Store.empty.set (counterPrefix ++ "aaaa") (uint64ToBytes 41))
      (counterPrefix ++ "aaaa") 0 = .ok 41 ∧
    IncrementCounter (Store.empty.set (counterPrefix ++ "aaaa") (uint64ToBytes 41))
      (counterPrefix ++ "aaaa") =
      .ok ((Store.empty.set (counterPrefix ++ "aaaa") (uint64ToBytes 41)).set
        (counterPrefix ++ "aaaa") (uint64ToBytes ((41 + 1) % two64))) :=
  ⟨by decide,
    (IncrementCounter_adds_one (Store.empty.set (counterPrefix ++ "aaaa") (uint64ToBytes 41))
      "aaaa" 41 (by decide)).1⟩

/-! ## Codec round trip and the alphabet -/

theorem uint64ToBytes_length (i : Nat) : (uint64ToBytes i).length = 8 := rfl

theorem encodeUInt64Array_length (arr : List Nat) :
    (encodeUInt64Array arr).length = 8 * arr.length := by
  induction arr with
  | nil => rfl
  | cons x xs ih =>
    rw [encodeUInt64Array, List.length_append, uint64ToBytes_length, ih, List.length_cons]
    omega

theorem encodeUInt64Array_append (a b : List Nat) :
    encodeUInt64Array (a ++ b) = encodeUInt64Array a ++ encodeUInt64Array b := by
  induction a with
  | nil => rfl
  | cons x xs ih => rw [List.cons_append, encodeUInt64Array, encodeUInt64Array, ih,
      List.append_assoc]

theorem encodeUInt64Array_eq_flatten (arr : List Nat) :
    encodeUInt64Array arr = (arr.map uint64ToBytes).flatten := by
  induction arr with
  | nil => rfl
  | cons x xs ih => rw [encodeUInt64Array, List.map_cons, List.flatten_cons, ih]

/-- C11: for every list of values below `2^64`, `SetUInt64Array` stores the concatenation,
in list order, of the 8-byte big-endian encodings of the elements, `8 * n` bytes for `n`
elements, and `GetUInt64Array` on the stored value returns the list; for every value below
`2^64`, `GetUInt64` on the value stored by `SetUint64` returns it. -/
theorem codec_round_trip (txn : Store) (key : String) (arr : List Nat) (i d : Nat)
    (harr : ∀ x ∈ arr, x < two64) (hi : i < two64) :
    SetUInt64Array txn key arr key = some ((arr.map uint64ToBytes).flatten) ∧
    ((arr.map uint64ToBytes).flatten).length = 8 * arr.length ∧
    (∀ x, uint64ToBytes x =
      [Fin.ofNat (x / 256 ^ 7), Fin.ofNat (x / 256 ^ 6), Fin.ofNat (x / 256 ^ 5),
       Fin.ofNat (x / 256 ^ 4), Fin.ofNat (x / 256 ^ 3), Fin.ofNat (x / 256 ^ 2),
       Fin.ofNat (x / 256 ^ 1), Fin.ofNat (x / 256 ^ 0)]) ∧
    GetUInt64Array (SetUInt64Array txn key arr) key = .ok arr ∧
    SetUint64 txn key i key = some (uint64ToBytes i) ∧
    GetUInt64 (SetUint64 txn key i) key d = .ok i := by
  refine ⟨?_, ?_, ?_, ?_, ?_, ?_⟩
  · rw [SetUInt64Array, Store.set_same, encodeUInt64Array_eq_flatten]
  · rw [← encodeUInt64Array_eq_flatten, encodeUInt64Array_length]
  · intro x
    simp [uint64ToBytes]
  · exact GetUInt64Array_SetUInt64Array txn key arr harr
  · rw [SetUint64, Store.set_same]
  · exact GetUInt64_SetUint64_same txn key i d hi

theorem codec_round_trip_witness :
    (∀ x ∈ [1, 258, two64 - 1], x < two64) ∧ (1234567890123 : Nat) < two64 ∧
    GetUInt64Array (SetUInt64Array Store.empty (weekLogPrefix ++ "aaaa") [1, 258, two64 - 1])
      (weekLogPrefix ++ "aaaa") = .ok [1, 258, two64 - 1] ∧
    GetUInt64 (SetUint64 Store.empty (counterPrefix ++ "aaaa") 1234567890123)
      (counterPrefix ++ "aaaa") 0 = .ok 1234567890123 :=
  have h := codec_round_trip Store.empty (weekLogPrefix ++ "aaaa") [1, 258, two64 - 1]
    1234567890123 0 (by decide) (by decide)
  have g := codec_round_trip Store.empty (counterPrefix ++ "aaaa") [1, 258, two64 - 1]
    1234567890123 0 (by decide) (by decide)
  ⟨by decide, by decide, h.2.2.2.1, g.2.2.2.2.2⟩

theorem GenRandomURL_length (rng : Rand) (pos n : Nat) : (GenRandomURL rng pos n).length = n := by
  simp [GenRandomURL, String.length]

/-- C12: for every length `n`, every random source and every position in it, `GenRandomURL`
returns a string of exactly `n` characters, each a member of `letterRunes`; `letterRunes`
is `a`..`z`, `A`..`Z`, `0`..`9`, `-`, `_` in this order, 64 pairwise distinct symbols. -/
theorem GenRandomURL_alphabet (rng : Rand) (pos n : Nat) :
    (GenRandomURL rng pos n).length = n ∧
    (∀ c ∈ (GenRandomURL rng pos n).data, c ∈ letterRunes) ∧
    letterRunes =
      (List.range 26).map (fun i => Char.ofNat (97 + i)) ++
      (List.range 26).map (fun i => Char.ofNat (65 + i)) ++
      (List.range 10).map (fun i => Char.ofNat (48 + i)) ++ [Char.ofNat 45, Char.ofNat 95] ∧
    letterRunes.length = 64 ∧ letterRunes.Nodup := by
  refine ⟨GenRandomURL_length rng pos n, ?_, by decide, by decide, by decide⟩
  intro c hc
  simp only [GenRandomURL, List.mem_map] at hc
  obtain ⟨i, _, rfl⟩ := hc
  exact List.get_mem _ _ _

/-! ## The accounting transaction -/

/-- C13, as stated, fails: with the week log of `aaaa` holding three bytes, the counter
update of a hit on `aaaa` succeeds and reads back 1 inside the transaction, the week-log
update then fails, and the store `Incrementer` leaves has no counter for `aaaa`: the
increment is not persisted. -/
theorem Incrementer_drops_counter_on_log_failure :
    (∃ txn1, IncrementCounter brokenLogStore (counterPrefix ++ "aaaa") = .ok txn1 ∧
      GetUInt64 txn1 (counterPrefix ++ "aaaa") 0 = .ok 1 ∧
      IncrementWeekLog txn1 (weekLogPrefix ++ "aaaa") sampleNow = .error .outOfRange) ∧
    Incrementer brokenLogStore "aaaa" (ascii "x") sampleNow (counterPrefix ++ "aaaa") = none ∧
    GetUInt64 (Incrementer brokenLogStore "aaaa" (ascii "x") sampleNow)
      (counterPrefix ++ "aaaa") 0 = .ok 0 := by
  refine ⟨⟨SetUint64 brokenLogStore (counterPrefix ++ "aaaa") ((0 + 1) % two64), rfl,
    by decide, rfl⟩, by decide, by decide⟩

/-- C13, amended: the counter increment and the week-log update of one hit run in one
read-write transaction.  Once the counter update has succeeded, a failing week-log update
makes `Incrementer` leave the store exactly as it was, so the increment is not persisted,
and a succeeding one makes it commit both updates together. -/
theorem Incrementer_atomic (db : Store) (shortener : String) (targetItem : Bytes) (now : Int)
    (txn1 : Store) (h1 : IncrementCounter db (counterPrefix ++ shortener) = .ok txn1) :
    (∀ e, IncrementWeekLog txn1 (weekLogPrefix ++ shortener) now = .error e →
      Incrementer db shortener targetItem now = db) ∧
    (∀ txn2, IncrementWeekLog txn1 (weekLogPrefix ++ shortener) now = .ok txn2 →
      Incrementer db shortener targetItem now = txn2) := by
  constructor
  · intro e h2
    simp only [Incrementer, IncrementerTxn, h1, h2]
  · intro txn2 h2
    simp only [Incrementer, IncrementerTxn, h1, h2]

theorem Incrementer_atomic_witness :
    IncrementCounter brokenLogStore (counterPrefix ++ "aaaa") =
      .ok (SetUint64 brokenLogStore (counterPrefix ++ "aaaa") ((0 + 1) % two64)) ∧
    IncrementWeekLog (SetUint64 brokenLogStore (counterPrefix ++ "aaaa") ((0 + 1) % two64))
      (weekLogPrefix ++ "aaaa") sampleNow = .error .outOfRange ∧
    Incrementer brokenLogStore "aaaa" (ascii "x") sampleNow = brokenLogStore :=
  ⟨rfl, rfl,
    (Incrementer_atomic brokenLogStore "aaaa" (ascii "x") sampleNow
      (SetUint64 brokenLogStore (counterPrefix ++ "aaaa") ((0 + 1) % two64)) rfl).1
      .outOfRange rfl⟩

/-! ## Statistics on stale entries and unknown codes -/

theorem weekLogKey_ne_counterKey (a c : String) : weekLogPrefix ++ a ≠ counterPrefix ++ c :=
  fun h => counterKey_ne_weekLogKey c a h.symm

/-- Pruning at `weekAgo` changes neither count when the day threshold is not below it. -/
theorem countHits_cleanWeekLog (weekAgo dayAgo : Nat) (h : weekAgo ≤ dayAgo) (l : List Nat) :
    ∀ c : Nat × Nat, countHits weekAgo dayAgo (cleanWeekLog weekAgo l) c =
      countHits weekAgo dayAgo l c := by
  induction l with
  | nil => intro c; rfl
  | cons ts rest ih =>
    intro c
    by_cases hw : ts > weekAgo
    · simp only [cleanWeekLog, if_pos hw, countHits, ih]
    · have hd : ¬ ts > dayAgo := by omega
      simp only [cleanWeekLog, if_neg hw, countHits, if_neg hd, ih]

theorem week_le_day (now : Int) (hlo : 7 * 24 * hour ≤ now) (hhi : now < 9223372036854775808) :
    toUint64 (now - 7 * 24 * hour) ≤ toUint64 (now - 24 * hour) := by
  have hh : hour = 3600000000000 := rfl
  rw [toUint64_toNat _ (by omega) (by omega), toUint64_toNat _ (by omega) (by omega)]
  omega

/-- C14: for every stored list `old` and every `now` at least 7 days after the epoch, the
counting loop of `URLStat` gives the same weekCounter and dayCounter on `old` and on `old`
pruned at the same `now` (the entries strictly greater than `now - 7 days`, which is what
the pruning loop of `IncrementWeekLog` keeps); and `URLStat` answers the same on a store
and on that store with the week log replaced by its pruned list. -/
theorem URLStat_counts_ignore_stale (db : Store) (shortener : String) (now : Int)
    (w : ResponseWriter) (old : List Nat)
    (hlog : GetUInt64Array db (weekLogPrefix ++ shortener) = .ok old)
    (hlo : 7 * 24 * hour ≤ now) (hhi : now < 9223372036854775808) :
    cleanWeekLog (toUint64 (now - 7 * 24 * hour)) old =
      old.filter (fun (ts : Nat) => decide (now - 7 * 24 * hour < (ts : Int))) ∧
    countHits (toUint64 (now - 7 * 24 * hour)) (toUint64 (now - 24 * hour))
        (cleanWeekLog (toUint64 (now - 7 * 24 * hour)) old) (0, 0) =
      countHits (toUint64 (now - 7 * 24 * hour)) (toUint64 (now - 24 * hour)) old (0, 0) ∧
    URLStat (SetUInt64Array db (weekLogPrefix ++ shortener)
        (cleanWeekLog (toUint64 (now - 7 * 24 * hour)) old)) shortener now w =
      URLStat db shortener now w := by
  have hh : hour = 3600000000000 := rfl
  have hcount := countHits_cleanWeekLog _ _ (week_le_day now hlo hhi) old (0, 0)
  refine ⟨?_, hcount, ?_⟩
  · rw [cleanWeekLog_eq_filter, toUint64_toNat _ (by omega) (by omega),
      filter_after _ (by omega)]
  · have k1 : GetString (SetUInt64Array db (weekLogPrefix ++ shortener)
          (cleanWeekLog (toUint64 (now - 7 * 24 * hour)) old)) (urlPrefix ++ shortener) [] =
        GetString db (urlPrefix ++ shortener) [] :=
      GetString_congr _ _ _ _
        (Store.set_other _ _ _ _ (Ne.symm (weekLogKey_ne_urlKey shortener shortener)))
    have k2 : GetUInt64 (SetUInt64Array db (weekLogPrefix ++ shortener)
          (cleanWeekLog (toUint64 (now - 7 * 24 * hour)) old)) (counterPrefix ++ shortener) 0 =
        GetUInt64 db (counterPrefix ++ shortener) 0 := by
      simp only [GetUInt64, SetUInt64Array,
        Store.set_other _ _ _ _ (Ne.symm (weekLogKey_ne_counterKey shortener shortener))]
    have k3 : GetUInt64Array (SetUInt64Array db (weekLogPrefix ++ shortener)
          (cleanWeekLog (toUint64 (now - 7 * 24 * hour)) old)) (weekLogPrefix ++ shortener) =
        .ok (cleanWeekLog (toUint64 (now - 7 * 24 * hour)) old) := by
      apply GetUInt64Array_SetUInt64Array
      intro x hx
      rw [cleanWeekLog_eq_filter] at hx
      exact GetUInt64Array_lt db _ old hlog x (List.mem_filter.1 hx).1
    simp only [URLStat, URLStatView, k1, k2, k3, hlog, hcount]

theorem URLStat_counts_ignore_stale_witness :
    GetUInt64Array statStore (weekLogPrefix ++ "aaaa") =
      .ok [1000000000000000000, 999992800000000000, 999740800000000000, 999308800000000000] ∧
    cleanWeekLog (toUint64 (sampleNow - 7 * 24 * hour))
        [1000000000000000000, 999992800000000000, 999740800000000000, 999308800000000000] =
      [1000000000000000000, 999992800000000000, 999740800000000000] ∧
    countHits (toUint64 (sampleNow - 7 * 24 * hour)) (toUint64 (sampleNow - 24 * hour))
        (cleanWeekLog (toUint64 (sampleNow - 7 * 24 * hour))
          [1000000000000000000, 999992800000000000, 999740800000000000, 999308800000000000])
        (0, 0) =
      countHits (toUint64 (sampleNow - 7 * 24 * hour)) (toUint64 (sampleNow - 24 * hour))
        [1000000000000000000, 999992800000000000, 999740800000000000, 999308800000000000]
        (0, 0) :=
  ⟨by decide, by decide,
    (URLStat_counts_ignore_stale statStore "aaaa" sampleNow .fresh
      [1000000000000000000, 999992800000000000, 999740800000000000, 999308800000000000]
      (by decide) (by decide) (by decide)).2.1⟩

/-- For a code whose lookup finds no target, `URLStat` sends 404 with `URL not found` and
then writes the statistics text with the zero values of its variables. -/
theorem URLStat_not_found (db : Store) (shortener : String) (now : Int)
    (h : GetString db (urlPrefix ++ shortener) [] = []) :
    URLStat db shortener now .fresh =
      .ok ⟨some 404, none, ascii "URL not found" ++ statText shortener ⟨[], 0, 0, 0⟩⟩ := by
  simp only [URLStat, URLStatView, h, if_true]
  rfl

/-- C16, at a failing input: on the empty store `URLStat` of the code `abcd1234` answers
status 404, but its body is `URL not found` followed by the statistics text with empty
target and zero counts, not `URL not found` alone. -/
theorem URLStat_not_found_appends_statistics :
    GetString Store.empty (urlPrefix ++ "abcd1234") [] = [] ∧
    URLStat Store.empty "abcd1234" sampleNow .fresh =
      .ok ⟨some 404, none, ascii ("URL not found" ++
        "\nShortened URL: http://localhost:8077/abcd1234<br>\nReal URL: <br>\n" ++
        "Overall hits: 0<br>\nWeekly hits: 0<br>\n24h hits: 0<br>\n")⟩ ∧
    URLStat Store.empty "abcd1234" sampleNow .fresh ≠
      .ok ⟨some 404, none, ascii "URL not found"⟩ := by
  decide

/-! ## Candidate lengths, the newest entry, ordered counts, decoding -/

theorem SetUrlGen_shortener_length (rng : Rand) (iteration : Nat) (s : Loop) :
    (SetUrlGen rng iteration s).shortener.length = (SetUrlGen rng iteration s).currentLength := by
  simp only [SetUrlGen]
  exact GenRandomURL_length _ _ _

/-- After at least one iteration, `shortener` is the last candidate generated and has the
cached length. -/
theorem SetUrlLoop_shortener (rng : Rand) (body : Bytes) (left : Nat) :
    ∀ (iteration : Nat) (s : Loop),
      (SetUrlLoop rng body (left + 1) iteration s).2.shortener.length =
        (SetUrlLoop rng body (left + 1) iteration s).2.currentLength ∧
      (SetUrlLoop rng body (left + 1) iteration s).2.tried.getLast? =
        some (SetUrlLoop rng body (left + 1) iteration s).2.shortener := by
  induction left with
  | zero =>
    intro iteration s
    have hg := SetUrlGen_shortener_length rng iteration s
    have ht : (SetUrlGen rng iteration s).tried.getLast? =
        some (SetUrlGen rng iteration s).shortener := by
      rw [SetUrlGen_tried]; simp
    simp only [SetUrlLoop]
    split
    · exact ⟨hg, ht⟩
    · exact ⟨hg, ht⟩
  | succ n ih =>
    intro iteration s
    have hg := SetUrlGen_shortener_length rng iteration s
    have ht : (SetUrlGen rng iteration s).tried.getLast? =
        some (SetUrlGen rng iteration s).shortener := by
      rw [SetUrlGen_tried]; simp
    rw [SetUrlLoop]
    split
    · exact ⟨hg, ht⟩
    · exact ih (iteration + 1) (SetUrlGen rng iteration s)

/-- Lengths of the candidates: the one generated at iteration `i + 1` has length `L` before
iteration 50 and `(L + 1) % two64` from iteration 50 on. -/
theorem SetUrlLoop_tried_lengths (rng : Rand) (body : Bytes) (L : Nat) (left : Nat) :
    ∀ (iteration : Nat) (s : Loop), iteration = s.tried.length + 1 → iteration + left ≤ 100 →
      s.currentLength = (if iteration ≤ 50 then L else (L + 1) % two64) →
      (∀ i c, s.tried[i]? = some c →
        c.length = if i + 1 < 50 then L else (L + 1) % two64) →
      ∀ i c, (SetUrlLoop rng body left iteration s).2.tried[i]? = some c →
        c.length = if i + 1 < 50 then L else (L + 1) % two64 := by
  induction left with
  | zero => intro iteration s _ _ _ hs; simpa [SetUrlLoop] using hs
  | succ n ih =>
    intro iteration s h1 h2 hcl hs
    have hc := SetUrlGen_currentLength rng iteration s
    simp only [beforeIncTrials] at hc
    have hlen : (SetUrlGen rng iteration s).currentLength =
        if iteration < 50 then L else (L + 1) % two64 := by
      rw [hc, hcl]
      split_ifs <;> first | rfl | (exfalso; omega)
    have hgen : ∀ i c, (SetUrlGen rng iteration s).tried[i]? = some c →
        c.length = if i + 1 < 50 then L else (L + 1) % two64 := by
      intro i c hic
      rw [SetUrlGen_tried] at hic
      by_cases hi : i < s.tried.length
      · rw [List.getElem?_append_left hi] at hic
        exact hs i c hic
      · rw [List.getElem?_append_right (by omega)] at hic
        have hi0 : i - s.tried.length = 0 := by
          by_contra hne
          rw [List.getElem?_eq_none (by simp; omega)] at hic
          exact Option.noConfusion hic
        rw [hi0] at hic
        simp only [List.getElem?_cons_zero, Option.some.injEq] at hic
        rw [← hic, SetUrlGen_shortener_length, hlen]
        have : i = s.tried.length := by omega
        split_ifs <;> first | rfl | (exfalso; omega)
    have htl : (SetUrlGen rng iteration s).tried.length = iteration := by
      rw [SetUrlGen_tried]; simp; omega
    simp only [SetUrlLoop]
    split
    · exact hgen
    · apply ih (iteration + 1) (SetUrlGen rng iteration s) (by omega) (by omega) _ hgen
      rw [hlen]
      split_ifs <;> first | rfl | (exfalso; omega)

theorem SetUrl_fields (rng : Rand) (body : Bytes) (s : State) (w : ResponseWriter) :
    (SetUrl rng body s w).tried = (SetUrlLoop rng body maxTrials 1 (SetUrlStart s)).2.tried ∧
    (SetUrl rng body s w).shortener =
      (SetUrlLoop rng body maxTrials 1 (SetUrlStart s)).2.shortener ∧
    (SetUrl rng body s w).state.currentLength =
      (SetUrlLoop rng body maxTrials 1 (SetUrlStart s)).2.currentLength := by
  cases hr : (SetUrlLoop rng body maxTrials 1 (SetUrlStart s)).1 with
  | none => rw [SetUrl_of_none rng body s w hr]; exact ⟨rfl, rfl, rfl⟩
  | some e => rw [SetUrl_of_some rng body s w e hr]; exact ⟨rfl, rfl, rfl⟩

/-- C17: in a call that starts with cached length `L < 2^64 - 1` (a larger length cannot be
generated at all), the candidate generated at iteration `i + 1` has length `L` when
`i + 1 < 50` and `L + 1` when `50 ≤ i + 1`; the code in `shortener` when the call returns is
the last candidate generated, so it has length `L` when fewer than 50 candidates were
generated and `L + 1` otherwise, and in both cases the cached length after the call. -/
theorem SetUrl_candidate_lengths (rng : Rand) (body : Bytes) (s : State) (w : ResponseWriter)
    (hL : s.currentLength < two64 - 1) :
    (∀ i c, (SetUrl rng body s w).tried[i]? = some c →
      (i + 1 < beforeIncTrials → c.length = s.currentLength) ∧
      (beforeIncTrials ≤ i + 1 → c.length = s.currentLength + 1)) ∧
    (SetUrl rng body s w).tried.length ≤ maxTrials ∧
    (SetUrl rng body s w).tried.getLast? = some (SetUrl rng body s w).shortener ∧
    ((SetUrl rng body s w).tried.length < beforeIncTrials →
      (SetUrl rng body s w).shortener.length = s.currentLength) ∧
    (beforeIncTrials ≤ (SetUrl rng body s w).tried.length →
      (SetUrl rng body s w).shortener.length = s.currentLength + 1) ∧
    (SetUrl rng body s w).shortener.length = (SetUrl rng body s w).state.currentLength := by
  obtain ⟨f1, f2, f3⟩ := SetUrl_fields rng body s w
  have h4 : (s.currentLength + 1) % two64 = s.currentLength + 1 := Nat.mod_eq_of_lt (by omega)
  have hsh := SetUrlLoop_shortener rng body 79 1 (SetUrlStart s)
  have hsh1 : (SetUrl rng body s w).shortener.length = (SetUrl rng body s w).state.currentLength := by
    rw [f2, f3]; exact hsh.1
  have hcl := SetUrl_currentLength rng body s w
  rw [h4] at hcl
  simp only [beforeIncTrials]
  refine ⟨?_, hcl.1, ?_, ?_, ?_, hsh1⟩
  · intro i c hic
    rw [f1] at hic
    have key := SetUrlLoop_tried_lengths rng body s.currentLength maxTrials 1 (SetUrlStart s)
      rfl (by simp [maxTrials]) (by simp [SetUrlStart]) (by simp [SetUrlStart]) i c hic
    rw [h4] at key
    constructor
    · intro hi; rw [key, if_pos hi]
    · intro hi; rw [key, if_neg (by omega)]
  · rw [f1, f2]; exact hsh.2
  · intro hlt; rw [hsh1, hcl.2, if_neg (by omega)]
  · intro hge; rw [hsh1, hcl.2, if_pos hge]

theorem SetUrl_candidate_lengths_witness :
    (4 : Nat) < two64 - 1 ∧
    (SetUrl zeroRand (ascii "x") ⟨Store.empty.set (urlPrefix ++ "aaaa") (ascii "y"), 4, 0⟩
      .fresh).err = none ∧
    (SetUrl zeroRand (ascii "x") ⟨Store.empty.set (urlPrefix ++ "aaaa") (ascii "y"), 4, 0⟩
      .fresh).tried.length = 50 ∧
    (SetUrl zeroRand (ascii "x") ⟨Store.empty.set (urlPrefix ++ "aaaa") (ascii "y"), 4, 0⟩
      .fresh).shortener = "aaaaa" ∧
    (SetUrl zeroRand (ascii "x") ⟨Store.empty.set (urlPrefix ++ "aaaa") (ascii "y"), 4, 0⟩
      .fresh).shortener.length = 4 + 1 :=
  ⟨by decide, by decide, by decide, by decide,
    (SetUrl_candidate_lengths zeroRand (ascii "x")
      ⟨Store.empty.set (urlPrefix ++ "aaaa") (ascii "y"), 4, 0⟩ .fresh (by decide)).2.2.2.2.1
      (by decide)⟩

theorem IncrementWeekLog_ok (txn : Store) (weekLogKey : String) (old : List Nat) (now : Int)
    (hold : GetUInt64Array txn weekLogKey = .ok old) :
    IncrementWeekLog txn weekLogKey now =
      .ok (SetUInt64Array txn weekLogKey
        (cleanWeekLog (toUint64 (now - 7 * 24 * hour)) (old ++ [toUint64 now]))) := by
  simp only [IncrementWeekLog, hold]

/-- C18: for every stored list `old` and every `now` at least 7 days after the epoch,
`IncrementWeekLog` succeeds, and the list then stored under the key, read back from the
resulting store, is the pruned list; it is not empty and its last element is `now`, and
the stored bytes end with the 8-byte encoding of `now`: the pruning loop keeps the
timestamp the call has just appended. -/
theorem IncrementWeekLog_keeps_now (txn : Store) (weekLogKey : String) (old : List Nat)
    (now : Int) (hold : GetUInt64Array txn weekLogKey = .ok old)
    (hlo : 7 * 24 * hour ≤ now) (hhi : now < 9223372036854775808) :
    ∃ txn1 written,
      IncrementWeekLog txn weekLogKey now = .ok txn1 ∧
      GetUInt64Array txn1 weekLogKey = .ok written ∧
      written = cleanWeekLog (toUint64 (now - 7 * 24 * hour)) (old ++ [toUint64 now]) ∧
      written ≠ [] ∧
      written.getLast? = some now.toNat ∧
      toUint64 now = now.toNat ∧
      ∃ front, txn1 weekLogKey = some (front ++ uint64ToBytes now.toNat) := by
  have hh : hour = 3600000000000 := rfl
  have e1 : toUint64 now = now.toNat := toUint64_toNat now (by omega) hhi
  have e2 : toUint64 (now - 7 * 24 * hour) = (now - 7 * 24 * hour).toNat :=
    toUint64_toNat _ (by omega) (by omega)
  have hkeep : cleanWeekLog (toUint64 (now - 7 * 24 * hour)) (old ++ [toUint64 now]) =
      cleanWeekLog (toUint64 (now - 7 * 24 * hour)) old ++ [now.toNat] := by
    rw [cleanWeekLog_eq_filter, cleanWeekLog_eq_filter, List.filter_append, e1, e2]
    congr 1
    rw [List.filter_cons_of_pos (by simp only [decide_eq_true_eq]; omega), List.filter_nil]
  have hread : GetUInt64Array (SetUInt64Array txn weekLogKey
        (cleanWeekLog (toUint64 (now - 7 * 24 * hour)) (old ++ [toUint64 now]))) weekLogKey =
      .ok (cleanWeekLog (toUint64 (now - 7 * 24 * hour)) (old ++ [toUint64 now])) := by
    apply GetUInt64Array_SetUInt64Array
    intro x hx
    rw [cleanWeekLog_eq_filter] at hx
    rcases List.mem_append.1 (List.mem_filter.1 hx).1 with h | h
    · exact GetUInt64Array_lt txn weekLogKey old hold x h
    · simp only [List.mem_singleton] at h
      rw [h, e1]
      simp only [two64]
      omega
  refine ⟨_, _, IncrementWeekLog_ok txn weekLogKey old now hold, hread, rfl, ?_, ?_, e1,
    encodeUInt64Array (cleanWeekLog (toUint64 (now - 7 * 24 * hour)) old), ?_⟩
  · rw [hkeep]; simp
  · rw [hkeep]; simp
  · rw [SetUInt64Array, Store.set_same, hkeep, encodeUInt64Array_append]
    rfl

theorem IncrementWeekLog_keeps_now_witness :
    GetUInt64Array statStore (weekLogPrefix ++ "aaaa") =
      .ok [1000000000000000000, 999992800000000000, 999740800000000000, 999308800000000000] ∧
    ∃ txn1 written,
      IncrementWeekLog statStore (weekLogPrefix ++ "aaaa") (sampleNow + 5) = .ok txn1 ∧
      GetUInt64Array txn1 (weekLogPrefix ++ "aaaa") = .ok written ∧
      written = cleanWeekLog (toUint64 (sampleNow + 5 - 7 * 24 * hour))
        ([1000000000000000000, 999992800000000000, 999740800000000000, 999308800000000000]
          ++ [toUint64 (sampleNow + 5)]) ∧
      written ≠ [] ∧
      written.getLast? = some (sampleNow + 5).toNat ∧
      toUint64 (sampleNow + 5) = (sampleNow + 5).toNat ∧
      ∃ front, txn1 (weekLogPrefix ++ "aaaa") =
        some (front ++ uint64ToBytes (sampleNow + 5).toNat) :=
  ⟨by decide,
    IncrementWeekLog_keeps_now statStore (weekLogPrefix ++ "aaaa")
      [1000000000000000000, 999992800000000000, 999740800000000000, 999308800000000000]
      (sampleNow + 5) (by decide) (by decide) (by decide)⟩

theorem filter_length_mono (p q : Nat → Bool) (h : ∀ x, p x = true → q x = true)
    (l : List Nat) : (l.filter p).length ≤ (l.filter q).length := by
  induction l with
  | nil => simp
  | cons x xs ih =>
    by_cases hp : p x = true
    · rw [List.filter_cons_of_pos hp, List.filter_cons_of_pos (h x hp)]
      simp only [List.length_cons]
      omega
    · rw [List.filter_cons_of_neg hp]
      by_cases hq : q x = true
      · rw [List.filter_cons_of_pos hq]
        simp only [List.length_cons]
        omega
      · rw [List.filter_cons_of_neg hq]
        exact ih

/-- C19: for every stored list with fewer than `2^64` entries (as every Go slice has) and
every `now` at least 7 days after the epoch, the counting loop of `URLStat` ends with
dayCounter ≤ weekCounter ≤ number of entries, and so do the values of every answer of
`URLStat`'s transaction. -/
theorem URLStat_counts_ordered (db : Store) (shortener : String) (now : Int)
    (w : ResponseWriter) (old : List Nat)
    (hlog : GetUInt64Array db (weekLogPrefix ++ shortener) = .ok old)
    (hlen : old.length < two64)
    (hlo : 7 * 24 * hour ≤ now) (hhi : now < 9223372036854775808) :
    (countHits (toUint64 (now - 7 * 24 * hour)) (toUint64 (now - 24 * hour)) old (0, 0)).2 ≤
      (countHits (toUint64 (now - 7 * 24 * hour)) (toUint64 (now - 24 * hour)) old (0, 0)).1 ∧
    (countHits (toUint64 (now - 7 * 24 * hour)) (toUint64 (now - 24 * hour)) old (0, 0)).1 ≤
      old.length ∧
    (∀ w1 st, URLStatView db shortener now w = .ok (w1, st) →
      st.dayCounter ≤ st.weekCounter ∧ st.weekCounter ≤ old.length) := by
  have hh : hour = 3600000000000 := rfl
  have e1 : toUint64 (now - 24 * hour) = (now - 24 * hour).toNat :=
    toUint64_toNat _ (by omega) (by omega)
  have e2 : toUint64 (now - 7 * 24 * hour) = (now - 7 * 24 * hour).toNat :=
    toUint64_toNat _ (by omega) (by omega)
  have hc := countHits_zero (now - 7 * 24 * hour) (now - 24 * hour) (by omega) (by omega)
    old hlen
  rw [← e1, ← e2] at hc
  have a : (old.filter (fun (ts : Nat) => decide (now - 24 * hour < (ts : Int)))).length ≤
      (old.filter (fun (ts : Nat) => decide (now - 7 * 24 * hour < (ts : Int)))).length := by
    apply filter_length_mono
    intro x hx
    simp only [decide_eq_true_eq] at hx ⊢
    omega
  have b := List.length_filter_le
    (fun (ts : Nat) => decide (now - 7 * 24 * hour < (ts : Int))) old
  refine ⟨by rw [hc]; exact a, by rw [hc]; exact b, ?_⟩
  intro w1 st hres
  simp only [URLStatView] at hres
  split at hres
  · injection hres with hres
    injection hres with _ hst
    subst hst
    exact ⟨Nat.le_refl _, Nat.zero_le _⟩
  · split at hres
    · exact Except.noConfusion hres
    · rw [hlog] at hres
      simp only [hc] at hres
      injection hres with hres
      injection hres with _ hst
      subst hst
      exact ⟨a, b⟩

theorem URLStat_counts_ordered_witness :
    GetUInt64Array statStore (weekLogPrefix ++ "aaaa") =
      .ok [1000000000000000000, 999992800000000000, 999740800000000000, 999308800000000000] ∧
    countHits (toUint64 (sampleNow - 7 * 24 * hour)) (toUint64 (sampleNow - 24 * hour))
      [1000000000000000000, 999992800000000000, 999740800000000000, 999308800000000000]
      (0, 0) = (3, 2) ∧
    (countHits (toUint64 (sampleNow - 7 * 24 * hour)) (toUint64 (sampleNow - 24 * hour))
      [1000000000000000000, 999992800000000000, 999740800000000000, 999308800000000000]
      (0, 0)).2 ≤
    (countHits (toUint64 (sampleNow - 7 * 24 * hour)) (toUint64 (sampleNow - 24 * hour))
      [1000000000000000000, 999992800000000000, 999740800000000000, 999308800000000000]
      (0, 0)).1 :=
  ⟨by decide, by decide,
    (URLStat_counts_ordered statStore "aaaa" sampleNow .fresh
      [1000000000000000000, 999992800000000000, 999740800000000000, 999308800000000000]
      (by decide) (by decide) (by decide) (by decide)).1⟩

/-- A byte string whose length is a multiple of 8 decodes, to `length / 8` elements. -/
theorem decodeUInt64Array_of_multiple (val : Bytes) :
    val.length % 8 = 0 →
      ∃ arr, decodeUInt64Array val = .ok arr ∧ arr.length = val.length / 8 := by
  induction val using decodeUInt64Array.induct with
  | case1 => intro _; exact ⟨[], rfl, rfl⟩
  | case2 b0 b1 b2 b3 b4 b5 b6 b7 rest tl hr ih =>
    intro h
    simp only [List.length_cons] at h
    obtain ⟨arr, ha, hl⟩ := ih (by omega)
    rw [hr] at ha
    injection ha with ha
    subst ha
    simp only [decodeUInt64Array, hr]
    exact ⟨_, rfl, by simp only [List.length_cons]; omega⟩
  | case3 b0 b1 b2 b3 b4 b5 b6 b7 rest e hr ih =>
    intro h
    simp only [List.length_cons] at h
    obtain ⟨arr, ha, _⟩ := ih (by omega)
    rw [hr] at ha
    exact Except.noConfusion ha
  | case4 t h1 h2 =>
    intro h
    exfalso
    rcases t with _ | ⟨a0, _ | ⟨a1, _ | ⟨a2, _ | ⟨a3, _ | ⟨a4, _ | ⟨a5, _ | ⟨a6, _ | ⟨a7, t⟩⟩⟩⟩⟩⟩⟩⟩
    · exact h1 rfl
    all_goals first
      | exact h2 _ _ _ _ _ _ _ _ _ rfl
      | simp at h

theorem GetUInt64Array_of_multiple (txn : Store) (key : String)
    (h : ∀ val, txn key = some val → val.length % 8 = 0) :
    ∃ arr, GetUInt64Array txn key = .ok arr := by
  unfold GetUInt64Array
  cases hk : txn key with
  | none => exact ⟨[], rfl⟩
  | some val =>
    obtain ⟨arr, ha, _⟩ := decodeUInt64Array_of_multiple val (h val hk)
    exact ⟨arr, ha⟩

theorem runWeekLog_ok (weekLogKey : String) (nows : List Int) :
    ∀ txn : Store, (∀ val, txn weekLogKey = some val → val.length % 8 = 0) →
      ∃ txn1, runWeekLog weekLogKey txn nows = .ok txn1 ∧
        ∀ val, txn1 weekLogKey = some val → val.length % 8 = 0 := by
  induction nows with
  | nil => intro txn h; exact ⟨txn, rfl, h⟩
  | cons now rest ih =>
    intro txn h
    obtain ⟨old, hold⟩ := GetUInt64Array_of_multiple txn weekLogKey h
    have hinc := IncrementWeekLog_ok txn weekLogKey old now hold
    have hwf : ∀ val, SetUInt64Array txn weekLogKey
        (cleanWeekLog (toUint64 (now - 7 * 24 * hour)) (old ++ [toUint64 now])) weekLogKey
          = some val → val.length % 8 = 0 := by
      intro val hv
      rw [SetUInt64Array, Store.set_same] at hv
      injection hv with hv
      rw [← hv, encodeUInt64Array_length]
      omega
    obtain ⟨txn1, h1, h2⟩ := ih _ hwf
    exact ⟨txn1, by simp only [runWeekLog, hinc, h1], h2⟩

/-- C20: every value `IncrementWeekLog` writes has a byte length that is a multiple of 8;
`GetUInt64Array`'s decoding loop succeeds on every byte string whose length is a multiple
of 8 and returns `length / 8` elements; so from a store without the key, any number of
`IncrementWeekLog` calls on it all succeed and the week log can then be read. -/
theorem weekLog_always_decodes (txn : Store) (weekLogKey : String) (now : Int)
    (nows : List Int) (val : Bytes) :
    (∀ txn1, IncrementWeekLog txn weekLogKey now = .ok txn1 →
      ∃ written, txn1 weekLogKey = some written ∧ written.length % 8 = 0) ∧
    (val.length % 8 = 0 →
      ∃ arr, decodeUInt64Array val = .ok arr ∧ arr.length = val.length / 8) ∧
    (txn weekLogKey = none →
      ∃ txn1 arr, runWeekLog weekLogKey txn nows = .ok txn1 ∧
        GetUInt64Array txn1 weekLogKey = .ok arr) := by
  refine ⟨?_, decodeUInt64Array_of_multiple val, ?_⟩
  · intro txn1 h
    cases hold : GetUInt64Array txn weekLogKey with
    | error e => simp only [IncrementWeekLog, hold] at h; exact Except.noConfusion h
    | ok old =>
      rw [IncrementWeekLog_ok txn weekLogKey old now hold] at h
      injection h with h
      refine ⟨_, by rw [← h, SetUInt64Array, Store.set_same], ?_⟩
      rw [encodeUInt64Array_length]
      omega
  · intro hnone
    obtain ⟨txn1, h1, h2⟩ := runWeekLog_ok weekLogKey nows txn
      (fun v hv => by rw [hnone] at hv; exact Option.noConfusion hv)
    obtain ⟨arr, ha⟩ := GetUInt64Array_of_multiple txn1 weekLogKey h2
    exact ⟨txn1, arr, h1, ha⟩

theorem weekLog_always_decodes_witness :
    Store.empty (weekLogPrefix ++ "aaaa") = none ∧
    (([1, 2, 3, 4, 5, 6, 7, 8] : Bytes).length % 8 = 0) ∧
    (∃ arr, decodeUInt64Array [1, 2, 3, 4, 5, 6, 7, 8] = .ok arr ∧
      arr.length = ([1, 2, 3, 4, 5, 6, 7, 8] : Bytes).length / 8) ∧
    (∃ txn1 arr, runWeekLog (weekLogPrefix ++ "aaaa") Store.empty
        [sampleNow, sampleNow + 5] = .ok txn1 ∧
      GetUInt64Array txn1 (weekLogPrefix ++ "aaaa") = .ok arr) :=
  ⟨rfl, by decide,
    (weekLog_always_decodes Store.empty (weekLogPrefix ++ "aaaa") sampleNow
      [sampleNow, sampleNow + 5] [1, 2, 3, 4, 5, 6, 7, 8]).2.1 (by decide),
    (weekLog_always_decodes Store.empty (weekLogPrefix ++ "aaaa") sampleNow
      [sampleNow, sampleNow + 5] [1, 2, 3, 4, 5, 6, 7, 8]).2.2 rfl⟩

end Gouss
